import Mathlib

/-!
# pascal-web: the client-side behaviour of `app.js`

A shallow embedding of `src/app.js` (classes `PageManager` and
`AnimationUtils`) and the properties the specification states about it.

The browser objects the script works on are modelled by explicit state:

* the page controller works on the document as a list of elements in tree
  order, each with its `id`, its classes `page` and `nav-link`, its `href`
  and its `active` class;
* the form validator works on the tree of elements below the form: form
  controls, `.error-message` elements and the elements that contain them;
* the notification presenter works on the list of `.notification` elements
  attached to the document and on the pending timers;
* the scroll listener works on its guard and on the browser's list of
  animation frame callbacks.
-/

namespace PascalWeb

/-! ## Page controller -/

/-- What the page controller reads and writes on an element. `id` is the
element's `id` property: the empty string when it has none. `isPage` says
whether the element is in `this.pages` (`querySelectorAll('.page')`) and
`isNavLink` whether it is in `this.navLinks`
(`querySelectorAll('.nav-link')`); the two node lists are taken once, in the
constructor, and an element may be in both. `href` is `getAttribute('href')`:
`none` when the attribute is absent. `active` says whether `classList`
contains `'active'`. -/
structure Element where
  id : String
  isPage : Bool
  isNavLink : Bool
  href : Option String
  active : Bool
  deriving DecidableEq, Repr

/-- The state `showPage` works on: the document's elements in tree order,
`this.currentPage`, and the page ids pushed on the session history by
`history.pushState({ page: pageId }, ...)`, oldest first. The document title
and the scroll position are written by `showPage` and read nowhere; they are
left out. -/
structure PageManager where
  document : List Element
  currentPage : String
  history : List String
  deriving DecidableEq, Repr

/-- Index of the first element of `doc` whose id is `id`. -/
def firstWithId (id : String) : List Element → Option Nat
  | [] => none
  | e :: es => if e.id = id then some 0 else (firstWithId id es).map (· + 1)

/-- `document.getElementById(id)`: the first element in tree order whose id
is `id`, as an index into the document; `none` for JavaScript's `null`. An
element without an id attribute (or with an empty one) has no id, so the
empty string finds nothing. -/
def getElementById (doc : List Element) (id : String) : Option Nat :=
  if id = "" then none else firstWithId id doc

/-- The loop `this.pages.forEach(page => page.classList.remove('active'))`. -/
def hideAllPages (doc : List Element) : List Element :=
  doc.map fun e => if e.isPage then { e with active := false } else e

/-- `updateActiveNavLink(pageId)`: every nav link loses `active`, and gets it
back when its `href` attribute is `#pageId`. -/
def updateActiveNavLink (doc : List Element) (pageId : String) : List Element :=
  doc.map fun e =>
    if e.isNavLink then
      { e with active := decide (e.href = some ("#" ++ pageId)) }
    else e

/-- `showPage(pageId, updateHistory = true)`. -/
def showPage (pm : PageManager) (pageId : String) (updateHistory : Bool := true) :
    PageManager :=
  -- Hide all pages
  let hidden := hideAllPages pm.document
  -- Show target page
  match getElementById hidden pageId with
  | none => { pm with document := hidden }
  | some i =>
    let shown := hidden.modify (fun e => { e with active := true }) i
    { document := updateActiveNavLink shown pageId
      currentPage := pageId
      history := if updateHistory then pm.history ++ [pageId] else pm.history }

/-- A run of `showPage` calls, each given as `(pageId, updateHistory)`. -/
def showPages (pm : PageManager) (calls : List (String × Bool)) : PageManager :=
  calls.foldl (fun s c => showPage s c.1 c.2) pm

/-- The registered pages that carry the `active` class. -/
def activePages (pm : PageManager) : List Element :=
  pm.document.filter fun e => e.isPage && e.active

/-- The ids of the registered pages are pairwise distinct: no two pages that
have an id share it. -/
def DistinctPageIds (doc : List Element) : Prop :=
  (((doc.filter (·.isPage)).map (·.id)).filter (· ≠ "")).Nodup

/-- The string `pageId` is the id of one of the registered pages. -/
def IsRegisteredPageId (doc : List Element) (pageId : String) : Prop :=
  pageId ≠ "" ∧ ∃ e ∈ doc, e.isPage = true ∧ e.id = pageId

/-- The element `document.getElementById(pageId)` returns, if any. -/
def resolve (doc : List Element) (pageId : String) : Option Element :=
  (getElementById doc pageId).bind fun i => doc[i]?

/-- `document.getElementById(pageId)` returns a registered page: no element
that is not a page carries the id ahead of the page in tree order. -/
def ResolvesToPage (doc : List Element) (pageId : String) : Prop :=
  ∃ e, resolve doc pageId = some e ∧ e.isPage = true

/-- A registered page that is also a nav link links to itself: its `href` is
`#` followed by its own id. -/
def SelfLinkedPages (doc : List Element) : Prop :=
  ∀ e ∈ doc, e.isPage = true → e.isNavLink = true → e.href = some ("#" ++ e.id)

instance (doc : List Element) : Decidable (DistinctPageIds doc) := by
  unfold DistinctPageIds; infer_instance

instance (doc : List Element) (pageId : String) : Decidable (IsRegisteredPageId doc pageId) := by
  unfold IsRegisteredPageId; infer_instance

instance (doc : List Element) (pageId : String) : Decidable (ResolvesToPage doc pageId) :=
  match h : resolve doc pageId with
  | none => isFalse (by rintro ⟨e, he, _⟩; rw [h] at he; cases he)
  | some e =>
    if hp : e.isPage = true then isTrue ⟨e, h, hp⟩
    else isFalse (by rintro ⟨e', he, hp'⟩; rw [h] at he; cases he; exact hp hp')

instance (doc : List Element) : Decidable (SelfLinkedPages doc) := by
  unfold SelfLinkedPages; infer_instance

/-- A document as the script expects it: four pages, their nav links and a
contact form. The home page is the active one. -/
def sampleDocument : List Element :=
  [ { id := "", isPage := false, isNavLink := true, href := some "#home", active := true },
    { id := "", isPage := false, isNavLink := true, href := some "#services", active := false },
    { id := "", isPage := false, isNavLink := true, href := some "#contact-info",
      active := false },
    { id := "home", isPage := true, isNavLink := false, href := none, active := true },
    { id := "services", isPage := true, isNavLink := false, href := none, active := false },
    { id := "about", isPage := true, isNavLink := false, href := none, active := false },
    { id := "contact", isPage := true, isNavLink := false, href := none, active := false },
    { id := "contactForm", isPage := false, isNavLink := false, href := none,
      active := false } ]

/-- The page controller right after `init()` on `sampleDocument`. -/
def samplePageManager : PageManager :=
  { document := sampleDocument, currentPage := "home", history := ["home"] }

/-- A document in which an element that is not a page carries the id `home`
ahead of the home page. The ids of the pages are pairwise distinct. -/
def shadowedDocument : List Element :=
  [ { id := "home", isPage := false, isNavLink := false, href := none, active := false },
    { id := "home", isPage := true, isNavLink := false, href := none, active := true },
    { id := "services", isPage := true, isNavLink := false, href := none, active := false } ]

/-- A document whose home page is itself a nav link, to the services page. -/
def linkedPageDocument : List Element :=
  [ { id := "home", isPage := true, isNavLink := true, href := some "#services",
      active := true },
    { id := "services", isPage := true, isNavLink := false, href := none, active := false } ]

/-- The document `showPage` leaves when `pageId` resolves to a page: nav
links are active exactly when they link to `pageId`, other pages exactly when
they carry that id. -/
def shownDocument (doc : List Element) (pageId : String) : List Element :=
  doc.map fun e =>
    if e.isNavLink then { e with active := decide (e.href = some ("#" ++ pageId)) }
    else if e.isPage then { e with active := decide (e.id = pageId) }
    else e

/-- The id and the classes of every element, in tree order: what `showPage`
never changes. -/
def skeleton (doc : List Element) : List (String × Bool × Bool × Option String) :=
  doc.map fun e => (e.id, e.isPage, e.isNavLink, e.href)

/-! ## Strings and the e-mail pattern -/

/-- The code points JavaScript counts as white space: the `WhiteSpace` and
`LineTerminator` productions. `String.prototype.trim` strips them and the
regular-expression class `\s` matches them. -/
def isWhiteSpace (c : Char) : Bool :=
  let n := c.toNat
  n = 0x09 || n = 0x0A || n = 0x0B || n = 0x0C || n = 0x0D || n = 0x20 || n = 0xA0 ||
  n = 0x1680 || (0x2000 ≤ n && n ≤ 0x200A) || n = 0x2028 || n = 0x2029 || n = 0x202F ||
  n = 0x205F || n = 0x3000 || n = 0xFEFF

/-- The characters of a string without leading and trailing white space. -/
def trimChars (cs : List Char) : List Char :=
  ((cs.dropWhile isWhiteSpace).reverse.dropWhile isWhiteSpace).reverse

/-- `String.prototype.trim`. -/
def jsTrim (s : String) : String :=
  ⟨trimChars s.data⟩

/-- The `length` of a JavaScript string: its number of UTF-16 code units. A
code point outside the basic plane takes two. -/
def jsLength (s : String) : Nat :=
  (s.data.map fun c => if c.toNat < 0x10000 then 1 else 2).sum

/-- Regular expressions over characters, with character classes given by a
predicate. -/
inductive Regex where
  | empty
  | eps
  | cls (p : Char → Bool)
  | seq (r s : Regex)
  | alt (r s : Regex)
  | star (r : Regex)

namespace Regex

/-- One or more repetitions: `r+`. -/
def plus (r : Regex) : Regex :=
  seq r (star r)

/-- Whether the expression matches the empty string. -/
def nullable : Regex → Bool
  | empty => false
  | eps => true
  | cls _ => false
  | seq r s => nullable r && nullable s
  | alt r s => nullable r || nullable s
  | star _ => true

/-- The Brzozowski derivative: what is left to match after reading `c`. -/
def deriv : Regex → Char → Regex
  | empty, _ => empty
  | eps, _ => empty
  | cls p, c => if p c then eps else empty
  | seq r s, c =>
    if nullable r then alt (seq (deriv r c) s) (deriv s c) else seq (deriv r c) s
  | alt r s, c => alt (deriv r c) (deriv s c)
  | star r, c => seq (deriv r c) (star r)

/-- Whether the expression matches the whole list of characters. -/
def matchesChars : Regex → List Char → Bool
  | r, [] => nullable r
  | r, c :: cs => matchesChars (deriv r c) cs

/-- `RegExp.prototype.test` for a pattern anchored with `^` and `$`: the whole
string has to match. -/
def test (r : Regex) (s : String) : Bool :=
  matchesChars r s.data

end Regex

/-- The class `[^\s@]`. -/
def notSpaceNorAt (c : Char) : Bool :=
  !(isWhiteSpace c || c = '@')

/-- The pattern `/^[^\s@]+@[^\s@]+\.[^\s@]+$/` of `validateField`. JavaScript
matches it over UTF-16 code units; a code point outside the basic plane is
two units that both belong to `[^\s@]`, and the class only occurs under `+`,
so matching over code points accepts the same strings. -/
def emailRegex : Regex :=
  .seq (.plus (.cls notSpaceNorAt))
    (.seq (.cls (· = '@'))
      (.seq (.plus (.cls notSpaceNorAt))
        (.seq (.cls (· = '.')) (.plus (.cls notSpaceNorAt)))))

/-- The strings a regular expression denotes. -/
inductive Regex.Matches : Regex → List Char → Prop
  | eps : Matches .eps []
  | cls {p : Char → Bool} {c : Char} : p c = true → Matches (.cls p) [c]
  | seq {r s : Regex} {u v : List Char} :
      Matches r u → Matches s v → Matches (.seq r s) (u ++ v)
  | altLeft {r s : Regex} {u : List Char} : Matches r u → Matches (.alt r s) u
  | altRight {r s : Regex} {u : List Char} : Matches s u → Matches (.alt r s) u
  | starNil {r : Regex} : Matches (.star r) []
  | starCons {r : Regex} {u v : List Char} :
      Matches r u → Matches (.star r) v → Matches (.star r) (u ++ v)

/-! ## Form validation -/

/-- A form control as `validateField` sees it. `name` is
`getAttribute('name')` (`none` when the attribute is absent), `value` is the
current value and `defaultValue` the one `form.reset()` restores, `required`
is `hasAttribute('required')`, `formControl` says whether the element has
class `form-control`, `errorClass` whether `classList` contains `'error'`,
and `borderColor` is the inline `style.borderColor` as last assigned. -/
structure Field where
  name : Option String
  value : String
  defaultValue : String
  required : Bool
  formControl : Bool
  errorClass : Bool
  borderColor : String
  deriving DecidableEq, Repr

/-- A run of sibling nodes of the document tree, in tree order: `nil` ends
the run, the other constructors put one node in front of the siblings that
follow it. A node is a form control, an `.error-message` element with its
text, or any other element with the run of its children. Controls and
`.error-message` elements are leaves: the messages the script creates hold
text only, and what a control contains plays no part. -/
inductive Dom where
  | nil
  | control (field : Field) (next : Dom)
  | message (text : String) (next : Dom)
  | element (children : Dom) (next : Dom)
  deriving DecidableEq, Repr

namespace Dom

/-- The form controls among the nodes and their descendants, in tree
order. -/
def controls : Dom → List Field
  | nil => []
  | control field next => field :: next.controls
  | message _ next => next.controls
  | element children next => children.controls ++ next.controls

/-- The texts of the `.error-message` elements among the nodes and their
descendants, in tree order. -/
def messages : Dom → List String
  | nil => []
  | control _ next => next.messages
  | message text next => text :: next.messages
  | element children next => children.messages ++ next.messages

/-- Apply `f` to the control of index `k` (counted in tree order). -/
def mapControl (f : Field → Field) : Nat → Dom → Dom
  | _, nil => nil
  | 0, control field next => control (f field) next
  | k + 1, control field next => control field (mapControl f k next)
  | k, message text next => message text (mapControl f k next)
  | k, element children next =>
    if k < children.controls.length then element (mapControl f k children) next
    else element children (mapControl f (k - children.controls.length) next)

/-- Apply `f` to every control. -/
def mapControls (f : Field → Field) : Dom → Dom
  | nil => nil
  | control field next => control (f field) (mapControls f next)
  | message text next => message text (mapControls f next)
  | element children next => element (mapControls f children) (mapControls f next)

/-- Remove the first `.error-message` in tree order, if there is one: what
`querySelector('.error-message')` finds, followed by `remove()`. -/
def removeFirstMessage : Dom → Dom
  | nil => nil
  | control field next => control field next.removeFirstMessage
  | message _ next => next
  | element children next =>
    if children.messages = [] then element children next.removeFirstMessage
    else element children.removeFirstMessage next

/-- Add an `.error-message` with the text after the last node:
`appendChild`. -/
def appendMessage (text : String) : Dom → Dom
  | nil => message text nil
  | control field next => control field (next.appendMessage text)
  | message other next => message other (next.appendMessage text)
  | element children next => element children (next.appendMessage text)

/-- Whether the control of index `k` is one of the nodes themselves, not a
descendant of one. -/
def isChild : Nat → Dom → Bool
  | _, nil => false
  | 0, control _ _ => true
  | k + 1, control _ next => isChild k next
  | k, message _ next => isChild k next
  | k, element children next =>
    if k < children.controls.length then false
    else isChild (k - children.controls.length) next

/-- Look for the parent of the control of index `k` below the nodes: the
result is the run of children of the parent, with the index its first
control has among the controls of the whole run. -/
def findParent : Nat → Dom → Option (Nat × Dom)
  | _, nil => none
  | 0, control _ _ => none
  | k + 1, control _ next => (findParent k next).map fun p => (p.1 + 1, p.2)
  | k, message _ next => findParent k next
  | k, element children next =>
    if k < children.controls.length then
      if children.isChild k then some (0, children) else findParent k children
    else
      (findParent (k - children.controls.length) next).map fun p =>
        (p.1 + children.controls.length, p.2)

/-- `field.parentNode` for the control of index `k`, as the run of children
of the parent together with the index its first control has in the whole
tree. The nodes themselves are the children of the root (the form). -/
def parentOf? (k : Nat) (d : Dom) : Option (Nat × Dom) :=
  if d.isChild k then some (0, d) else d.findParent k

/-- Apply `g` to the children of the parent of the control of index `k`,
when that parent lies below the nodes; `g` is given the index the control has
among the controls below its parent. -/
def descend (g : Nat → Dom → Dom) : Nat → Dom → Dom
  | _, nil => nil
  | 0, control field next => control field next
  | k + 1, control field next => control field (descend g k next)
  | k, message text next => message text (descend g k next)
  | k, element children next =>
    if k < children.controls.length then
      element (if children.isChild k then g k children else descend g k children) next
    else element children (descend g (k - children.controls.length) next)

/-- Apply `g` to the children of `field.parentNode`, for the control of index
`k`. -/
def atParent (g : Nat → Dom → Dom) (k : Nat) (d : Dom) : Dom :=
  if d.isChild k then g k d else d.descend g k

end Dom

/-- The element `form.querySelector('button[type="submit"]')` finds. -/
structure SubmitButton where
  disabled : Bool
  textContent : String
  deriving DecidableEq, Repr

/-- A form: the tree of its descendants that matter to validation (the run of
children of the form element), and its first `button[type="submit"]`, if it
has one. -/
structure Form where
  content : Dom
  submitButton : Option SubmitButton
  deriving DecidableEq, Repr

/-- A control of a form: its index among the controls of the form in tree
order. It stands for the element object the script passes around. -/
abbrev FieldRef := Nat

/-- The control a reference designates. -/
def Form.field? (form : Form) (ref : FieldRef) : Option Field :=
  form.content.controls[ref]?

/-- The update `g` keeps the controls where they are: it changes neither
their number nor which of them are children of the parent. -/
def Dom.KeepsShape (g : Nat → Dom → Dom) : Prop :=
  ∀ k c, (g k c).controls.length = c.controls.length ∧ ∀ j, (g k c).isChild j = c.isChild j

/-- The control `j` lies below the parent of the control `i`. -/
def Dom.Below (i j : Nat) (d : Dom) : Prop :=
  ∃ a c, Dom.parentOf? i d = some (a, c) ∧ a ≤ j ∧ j < a + c.controls.length


/-- A control with nothing filled in. -/
def Field.blank : Field :=
  { name := none, value := "", defaultValue := "", required := false, formControl := false,
    errorClass := false, borderColor := "" }

/-- The shape of a tree: where its controls lie, with their content and the
`.error-message` elements left out. Validation never changes it. -/
def Dom.shape : Dom → Dom
  | .nil => .nil
  | .control _ next => .control Field.blank next.shape
  | .message _ next => next.shape
  | .element children next => .element children.shape next.shape

/-- The stretch of controls below the parent of the control of index `k`: the
index of the first one and their number. -/
def Dom.span? (k : Nat) (d : Dom) : Option (Nat × Nat) :=
  (d.parentOf? k).map fun p => (p.1, p.2.controls.length)

/-- The update `g` changes the content of controls and the `.error-message`
elements only. -/
def Dom.SameShape (g : Nat → Dom → Dom) : Prop :=
  ∀ k c, (g k c).shape = c.shape

/-- What `labels[fieldName]` finds on `Object.prototype` for a name that is
not a key of `labels`, as a template literal prints it: an inherited method
prints as a native function (in the form V8 gives it) and `__proto__` as an
object. -/
def inheritedLabel (name : String) : Option String :=
  if name = "constructor" then some "function Object() \x7b [native code] \x7d"
  else if name ∈ ["toString", "toLocaleString", "valueOf", "hasOwnProperty", "isPrototypeOf",
      "propertyIsEnumerable", "__defineGetter__", "__defineSetter__", "__lookupGetter__",
      "__lookupSetter__"] then
    some ("function " ++ name ++ "() \x7b [native code] \x7d")
  else if name = "__proto__" then some "[object Object]"
  else none

/-- The lookup `labels[fieldName] || fieldName` as it appears in a template
literal: a key of `labels` gives its label, a name `Object.prototype` defines
gives that member, any other name gives itself; an absent name attribute
gives `null`, printed as `null`. -/
def getFieldLabel (fieldName : Option String) : String :=
  match fieldName with
  | none => "null"
  | some n =>
    if n = "name" then "Full Name"
    else if n = "email" then "Email Address"
    else if n = "company" then "Company"
    else if n = "service" then "Service of Interest"
    else if n = "message" then "Message"
    else
      match inheritedLabel n with
      | some text => text
      | none => n

/-- The rule part of `validateField`: the four `if` statements, run in
order on the trimmed value, each overwriting `isValid` and `errorMessage`
when its condition holds. Returns `(isValid, errorMessage)`. -/
def evaluateRules (field : Field) : Bool × String :=
  let value := jsTrim field.value
  let fieldName := field.name
  let r : Bool × String := (true, "")
  -- Required field validation
  let r := if field.required && decide (value = "") then
      (false, getFieldLabel fieldName ++ " is required.") else r
  -- Email validation
  let r := if decide (fieldName = some "email") && !decide (value = "") then
      (if !emailRegex.test value then (false, "Please enter a valid email address.") else r)
    else r
  -- Name validation
  let r := if decide (fieldName = some "name") && !decide (value = "")
      && decide (jsLength value < 2) then
      (false, "Name must be at least 2 characters long.") else r
  -- Message validation
  let r := if decide (fieldName = some "message") && !decide (value = "")
      && decide (jsLength value < 10) then
      (false, "Message must be at least 10 characters long.") else r
  r

/-- The body of `clearFieldError`, on the children of the parent of the
control, which has index `k` among the controls below that parent: the
control loses the `error` class and its border colour, and the first
`.error-message` below the parent, if any, is removed. -/
def Dom.clearError (k : Nat) (c : Dom) : Dom :=
  (c.mapControl (fun f => { f with errorClass := false, borderColor := "" }) k).removeFirstMessage

/-- The body of `showFieldError`, on the children of the parent of the
control: the control gets the `error` class and a red border, the first
`.error-message` below the parent, if any, is removed, and a new one with the
message is appended to the parent. -/
def Dom.showError (message : String) (k : Nat) (c : Dom) : Dom :=
  ((c.mapControl (fun f => { f with errorClass := true, borderColor := "#ef4444" })
    k).removeFirstMessage).appendMessage message

/-- `clearFieldError(field)`. -/
def clearFieldError (form : Form) (ref : FieldRef) : Form :=
  { form with content := form.content.atParent Dom.clearError ref }

/-- `showFieldError(field, message)`. -/
def showFieldError (form : Form) (ref : FieldRef) (message : String) : Form :=
  { form with content := form.content.atParent (Dom.showError message) ref }

/-- `validateField(field)`: returns the form afterwards and `isValid`. A
reference that designates no control stands for no call of the script; the
form is returned as it is. -/
def validateField (form : Form) (ref : FieldRef) : Form × Bool :=
  match form.field? ref with
  | none => (form, true)
  | some field =>
    let (isValid, errorMessage) := evaluateRules field
    -- Remove existing error styling
    let form := clearFieldError form ref
    if !isValid then (showFieldError form ref errorMessage, isValid)
    else (form, isValid)

/-- What the selector `.form-control[required]` matches. -/
def isRequiredControl (field : Field) : Bool :=
  field.formControl && field.required

/-- References to the controls among `controls` that the selector matches,
in order; `i` is the index of the first of them. -/
def controlRefs (i : Nat) : List Field → List FieldRef
  | [] => []
  | f :: fs =>
    if isRequiredControl f then i :: controlRefs (i + 1) fs
    else controlRefs (i + 1) fs

/-- `form.querySelectorAll('.form-control[required]')`: the controls with
class `form-control` and the `required` attribute, in tree order. -/
def requiredControls (form : Form) : List FieldRef :=
  controlRefs 0 form.content.controls

/-- The loop of `validateForm`, started with any value of `isValid`: every
control is validated, and the result is false as soon as one is invalid. -/
def validateLoop (acc : Form × Bool) (controls : List FieldRef) : Form × Bool :=
  controls.foldl
    (fun (acc : Form × Bool) ref =>
      let (form, ok) := validateField acc.1 ref
      (form, if !ok then false else acc.2))
    acc

/-- The loop of `validateForm` over a list of controls. -/
def validateControls (form : Form) (controls : List FieldRef) : Form × Bool :=
  validateLoop (form, true) controls

/-- `validateForm(form)`. -/
def validateForm (form : Form) : Form × Bool :=
  validateControls form (requiredControls form)

/-- What is shown at the control `ref` designates: the control itself and the
texts of the `.error-message` elements below its parent, in tree order. -/
def Form.shownAt? (form : Form) (ref : FieldRef) : Option (Field × List String) :=
  match form.content.parentOf? ref with
  | none => none
  | some (a, c) => (c.controls[ref - a]?).map fun field => (field, c.messages)

/-- The control `ref` designates is in the error state with `message`: it has
the `error` class and an `.error-message` with that text is rendered below
its parent. -/
def ShowsError (form : Form) (ref : FieldRef) (message : String) : Prop :=
  ∃ field messages, form.shownAt? ref = some (field, messages) ∧
    field.errorClass = true ∧ message ∈ messages

/-- The control `ref` designates is in the error state: `error` class plus an
error message rendered for it, the one `validateField` computes for it. -/
def InErrorState (form : Form) (ref : FieldRef) : Prop :=
  ∃ field, form.field? ref = some field ∧ ShowsError form ref (evaluateRules field).2

instance (form : Form) (ref : FieldRef) (message : String) :
    Decidable (ShowsError form ref message) :=
  match h : form.shownAt? ref with
  | none => isFalse (by rintro ⟨f, ms, hs, _⟩; rw [h] at hs; cases hs)
  | some (f, ms) =>
    if hc : f.errorClass = true ∧ message ∈ ms then isTrue ⟨f, ms, h, hc.1, hc.2⟩
    else isFalse (by
      rintro ⟨f', ms', hs, h1, h2⟩
      rw [h] at hs; cases hs
      exact hc ⟨h1, h2⟩)

instance (form : Form) (ref : FieldRef) : Decidable (InErrorState form ref) :=
  match h : form.field? ref with
  | none => isFalse (by rintro ⟨f, hf, _⟩; rw [h] at hf; cases hf)
  | some f =>
    if hs : ShowsError form ref (evaluateRules f).2 then isTrue ⟨f, h, hs⟩
    else isFalse (by rintro ⟨f', hf, hs'⟩; rw [h] at hf; cases hf; exact hs hs')

/-- How many controls the selector `.form-control[required]` matches below
the parent of the control `ref` designates. -/
def requiredBelowParent (form : Form) (ref : FieldRef) : Nat :=
  match form.content.parentOf? ref with
  | none => 0
  | some (_, c) => (c.controls.filter isRequiredControl).length

/-- The parent element of each required control has no other required
control among its descendants. -/
def SeparateParents (form : Form) : Prop :=
  ∀ ref ∈ requiredControls form, requiredBelowParent form ref ≤ 1

instance (form : Form) : Decidable (SeparateParents form) := by
  unfold SeparateParents; infer_instance

/-- The children of the parent of a control after `validateField` has run on
the control, which has index `k` among the controls below that parent. -/
def Dom.validated (field : Field) (k : Nat) (c : Dom) : Dom :=
  if (evaluateRules field).1 then c.clearError k
  else (c.clearError k).showError (evaluateRules field).2 k

/-- The value `validateField` returns for the control `ref` designates. -/
def fieldValid (form : Form) (ref : FieldRef) : Bool :=
  match form.field? ref with
  | none => true
  | some field => (evaluateRules field).1

/-- The four rules of `validateField`, in the order of its `if` statements. -/
inductive Rule where
  | required
  | email
  | name
  | message
  deriving DecidableEq, Repr

/-- Whether the field fails the rule: the condition of the rule's `if`
statement. -/
def Rule.fails (rule : Rule) (field : Field) : Bool :=
  let value := jsTrim field.value
  match rule with
  | .required => field.required && decide (value = "")
  | .email =>
    decide (field.name = some "email") && !decide (value = "") && !emailRegex.test value
  | .name =>
    decide (field.name = some "name") && !decide (value = "") && decide (jsLength value < 2)
  | .message =>
    decide (field.name = some "message") && !decide (value = "")
      && decide (jsLength value < 10)

/-- The message the rule's `if` statement assigns. -/
def Rule.errorMessage (rule : Rule) (field : Field) : String :=
  match rule with
  | .required => getFieldLabel field.name ++ " is required."
  | .email => "Please enter a valid email address."
  | .name => "Name must be at least 2 characters long."
  | .message => "Message must be at least 10 characters long."

/-- The first rule the field fails, in the order required, email, name,
message. -/
def firstFailingRule (field : Field) : Option Rule :=
  [Rule.required, Rule.email, Rule.name, Rule.message].find? fun rule => rule.fails field

/-- The characters of the string contain an `@` that no `.` follows. -/
def AtWithoutDot (cs : List Char) : Prop :=
  ∃ pre post, cs = pre ++ '@' :: post ∧ '.' ∉ post

/-- A plain text input with class `form-control`. -/
def textField (name value : String) (required : Bool) : Field :=
  { name := some name, value := value, defaultValue := "", required := required,
    formControl := true, errorClass := false, borderColor := "" }

/-- A control alone in a wrapper element of its own. -/
def wrapped (field : Field) (next : Dom) : Dom :=
  .element (.control field .nil) next

/-- A contact form with every control in a wrapper of its own. -/
def contactForm (name email message : String) : Form :=
  { content :=
      wrapped (textField "name" name true) <|
      wrapped (textField "email" email true) <|
      wrapped (textField "company" "" false) <|
      wrapped (textField "message" message true) .nil
    submitButton := some { disabled := false, textContent := "Send Message" } }

/-- A form with a single control, alone below its parent. -/
def singleFieldForm (field : Field) : Form :=
  { content := wrapped field .nil, submitButton := none }

/-- A form whose two required controls are children of the same element. -/
def sharedParentForm : Form :=
  { content :=
      .element (.control (textField "name" "" true)
        (.control (textField "email" "a@b.co" true) .nil)) .nil
    submitButton := some { disabled := false, textContent := "Send Message" } }

/-- A form whose required message control, left empty, has a wrapper of its
own inside the element that is the parent of the required name control: no
two required controls share a parent, but the parent of the name control has
the message control among its descendants. -/
def nestedParentForm : Form :=
  { content :=
      .element
        (wrapped (textField "message" "" true) <|
          .control (textField "name" "Al" true) .nil) .nil
    submitButton := some { disabled := false, textContent := "Send Message" } }

/-- A form with a required name control holding `A` (invalid) and a required
e-mail control holding `a@b.co` (valid), each in a wrapper of its own. -/
def twoFieldForm : Form :=
  { content :=
      wrapped (textField "name" "A" true) <|
      wrapped (textField "email" "a@b.co" true) .nil
    submitButton := some { disabled := false, textContent := "Send Message" } }

/-- A form whose optional e-mail control shows an error from an earlier
validation: the `error` class, the red border and one `.error-message` below
its parent. -/
def staleErrorForm (value : String) : Form :=
  { content :=
      .element
        (.control { textField "email" value false with
                    errorClass := true, borderColor := "#ef4444" }
          (.message "Please enter a valid email address." .nil)) .nil
    submitButton := none }

/-- A form whose control has `count` `.error-message` elements left below its
parent. -/
def staleMessagesForm (field : Field) (count : Nat) : Form :=
  { content :=
      .element (.control field
        ((List.replicate count "Please enter a valid email address.").foldr
          Dom.message .nil)) .nil
    submitButton := none }

/-- What `validateField` does to the control itself when it runs with the
content of `field`: the `error` class and the border colour are set by the
outcome of the rules. -/
def restyle (field : Field) (f : Field) : Field :=
  { f with
    errorClass := !(evaluateRules field).1
    borderColor := if (evaluateRules field).1 then "" else "#ef4444" }

/-! ## Notifications and form submission -/

/-- A `.notification` element. `id` stands for the identity of the element
object, `type` is the severity in its class `notification--type`, and
`animation` is its inline `style.animation`. -/
structure Notification where
  id : Nat
  message : String
  type : String
  animation : String
  deriving DecidableEq, Repr

/-- The state the form handler and the notification presenter work on: the
contact form, the `.notification` elements attached to the document in tree
order, the number of notifications created so far (the identity of the next
one), and the notifications whose 5000 ms dismissal timer, respectively
300 ms removal timer, is pending. -/
structure Ui where
  form : Form
  notifications : List Notification
  created : Nat
  dismissTimers : List Nat
  removeTimers : List Nat
  deriving DecidableEq, Repr

/-- `showNotification(message, type = 'info')`. -/
def showNotification (ui : Ui) (message : String) (type : String := "info") : Ui :=
  -- Remove existing notifications: every element the selector finds is detached
  let remaining : List Notification := []
  -- Create notification element
  let notification : Notification :=
    { id := ui.created, message := message, type := type,
      animation := "slideInRight 0.3s ease-out" }
  { ui with
    notifications := remaining ++ [notification]
    created := ui.created + 1
    -- Auto remove after 5 seconds
    dismissTimers := ui.dismissTimers ++ [ui.created] }

/-- `notification.remove()`: the element leaves the document; nothing happens
when it is not attached. -/
def removeNotification (ui : Ui) (id : Nat) : Ui :=
  { ui with notifications := ui.notifications.filter fun n => decide (n.id ≠ id) }

/-- What can happen to the notification area: a call of `showNotification`,
a click on the close button of the notification `id`, the 5000 ms timer of
the notification `id` firing, and the 300 ms timer set by its dismissal
firing. -/
inductive UiEvent where
  | showNotification (message : String) (type : String)
  | closeClick (id : Nat)
  | dismissTimer (id : Nat)
  | removeTimer (id : Nat)
  deriving DecidableEq, Repr

/-- The reaction to one event. A timer fires only while it is pending. -/
def Ui.step (ui : Ui) : UiEvent → Ui
  | .showNotification message type => PascalWeb.showNotification ui message type
  | .closeClick id => removeNotification ui id
  | .dismissTimer id =>
    if id ∈ ui.dismissTimers then
      let ui := { ui with dismissTimers := ui.dismissTimers.erase id }
      -- if (notification.parentNode)
      if ui.notifications.any (fun n => decide (n.id = id)) then
        { ui with
          notifications := ui.notifications.map fun n =>
            if n.id = id then { n with animation := "slideOutRight 0.3s ease-out" } else n
          removeTimers := ui.removeTimers ++ [id] }
      else ui
    else ui
  | .removeTimer id =>
    if id ∈ ui.removeTimers then
      removeNotification { ui with removeTimers := ui.removeTimers.erase id } id
    else ui

/-- The state after a run of events. -/
def Ui.run (ui : Ui) (events : List UiEvent) : Ui :=
  events.foldl Ui.step ui

/-- `form.reset()`: every control gets its default value back. -/
def Form.reset (form : Form) : Form :=
  { form with
    content := form.content.mapControls fun f => { f with value := f.defaultValue } }

/-- Where `handleFormSubmission` stands when its synchronous part is over:
`invalid` when validation failed and the function has returned; `threw` when
the form has no `button[type="submit"]`, so that reading `textContent` of
`null` threw and the promise of the call is rejected; `pending` when the
function awaits the transport, with the label it saved. -/
inductive Submission where
  | invalid (ui : Ui)
  | threw (ui : Ui)
  | pending (ui : Ui) (originalText : String)
  deriving DecidableEq, Repr

/-- `handleFormSubmission(form)` up to its `await`. -/
def handleFormSubmissionStart (ui : Ui) : Submission :=
  let (form, isValid) := validateForm ui.form
  let ui := { ui with form := form }
  if !isValid then
    .invalid (showNotification ui "Please correct the errors in the form." "error")
  else
    match form.submitButton with
    | none => .threw ui
    | some submitButton =>
      let originalText := submitButton.textContent
      -- Show loading state
      .pending
        { ui with
          form := { form with
            submitButton := some { disabled := true, textContent := "Sending..." } } }
        originalText

/-- `handleFormSubmission(form)` from the moment the transport settles:
`resolved` says whether `simulateFormSubmission` resolved or rejected. -/
def handleFormSubmissionSettle (ui : Ui) (originalText : String) (resolved : Bool) : Ui :=
  let ui :=
    if resolved then
      -- Show success message
      let ui := showNotification ui
        "Thank you for your message! We will get back to you soon." "success"
      -- Reset form
      { ui with form := ui.form.reset }
    else
      showNotification ui
        "There was an error sending your message. Please try again." "error"
  -- finally: reset button
  { ui with
    form := { ui.form with
      submitButton := ui.form.submitButton.map fun _ =>
        { disabled := false, textContent := originalText } } }

/-- How the promise of an `async` call ends. -/
inductive Completion where
  | fulfilled (ui : Ui)
  | rejected (ui : Ui)
  deriving DecidableEq, Repr

/-- `handleFormSubmission(form)` with nothing else happening while the
transport is pending; `resolved` is the outcome of the transport. -/
def handleFormSubmission (ui : Ui) (resolved : Bool) : Completion :=
  match handleFormSubmissionStart ui with
  | .invalid ui => .fulfilled ui
  | .threw ui => .rejected ui
  | .pending ui originalText => .fulfilled (handleFormSubmissionSettle ui originalText resolved)

/-- The page with a form and no notification yet. -/
def Ui.initial (form : Form) : Ui :=
  { form := form, notifications := [], created := 0, dismissTimers := [], removeTimers := [] }

/-- A valid contact form whose service control is a drop-down with a
preselected option. -/
def preselectedForm : Form :=
  { content :=
      wrapped (textField "name" "Al" true) <|
      wrapped (textField "email" "al@example.com" true) <|
      wrapped { textField "service" "consulting" false with defaultValue := "general" } <|
      wrapped (textField "message" "Please call me back." true) .nil
    submitButton := some { disabled := false, textContent := "Send Message" } }

/-- A valid contact form submitted through `<input type="submit">`: it has no
`button[type="submit"]`. -/
def buttonlessForm : Form :=
  { (contactForm "Al" "al@example.com" "Please call me back.") with submitButton := none }

/-- What can happen on the page while a submission is pending, other than a
second submission: an event of the notification area, a `blur` event on a
control, or the user editing a control, which fires its `input` event. -/
inductive PageEvent where
  | notification (event : UiEvent)
  | blur (ref : FieldRef)
  | input (ref : FieldRef) (value : String)
  deriving DecidableEq, Repr

/-- The listeners of `setupFormValidation`: `blur` on a `.form-control` runs
`validateField`, `input` on it runs `clearFieldError` after the value has
changed. -/
def Ui.react (ui : Ui) : PageEvent → Ui
  | .notification event => ui.step event
  | .blur ref =>
    match ui.form.field? ref with
    | some field =>
      if field.formControl then { ui with form := (validateField ui.form ref).1 } else ui
    | none => ui
  | .input ref value =>
    match ui.form.field? ref with
    | some field =>
      let form : Form :=
        { ui.form with
          content := ui.form.content.mapControl (fun f => { f with value := value }) ref }
      if field.formControl then { ui with form := clearFieldError form ref }
      else { ui with form := form }
    | none => ui

/-- The state after a run of page events. -/
def Ui.interact (ui : Ui) (events : List PageEvent) : Ui :=
  events.foldl Ui.react ui

/-! ## Scroll effects -/

/-- The inline style of the `.navbar` element that `updateScrollEffects`
writes. -/
structure NavbarStyle where
  boxShadow : String
  backgroundColor : String
  backdropFilter : String
  deriving DecidableEq, Repr

/-- The state of one call of `addScrollEffects`: the closure variable
`ticking`; how many `updateScrollEffects` callbacks are in the browser's list
of animation frame callbacks; how many times `requestAnimationFrame` has been
called and how many times `updateScrollEffects` has run, both since the
listener was installed; `window.pageYOffset`, in whole pixels; and the style
of the element `document.querySelector('.navbar')` finds, `none` when there
is no such element. -/
structure ScrollEffects where
  ticking : Bool
  pendingCallbacks : Nat
  requested : Nat
  recomputed : Nat
  pageYOffset : Int
  navbar : Option NavbarStyle
  deriving DecidableEq, Repr

/-- `addScrollEffects()`: `ticking` starts false, nothing is queued, and the
scroll listener is installed. -/
def addScrollEffects (pageYOffset : Int) (navbar : Option NavbarStyle) : ScrollEffects :=
  { ticking := false, pendingCallbacks := 0, requested := 0, recomputed := 0,
    pageYOffset := pageYOffset, navbar := navbar }

/-- `updateScrollEffects()`: the header style is recomputed from the scroll
offset, when there is a header, and the guard is cleared. -/
def updateScrollEffects (s : ScrollEffects) : ScrollEffects :=
  let scrolled := s.pageYOffset
  let navbar := s.navbar.map fun _ =>
    if scrolled > 100 then
      { boxShadow := "0 2px 20px rgba(0,0,0,0.1)",
        backgroundColor := "rgba(255, 255, 255, 0.95)",
        backdropFilter := "blur(10px)" }
    else
      { boxShadow := "0 2px 4px rgba(0,0,0,0.1)",
        backgroundColor := "#ffffff",
        backdropFilter := "none" }
  { s with navbar := navbar, recomputed := s.recomputed + 1, ticking := false }

/-- `requestTick()`: unless a callback is already awaited, one is queued with
`requestAnimationFrame` and the guard is set. -/
def requestTick (s : ScrollEffects) : ScrollEffects :=
  if !s.ticking then
    { s with
      pendingCallbacks := s.pendingCallbacks + 1
      requested := s.requested + 1
      ticking := true }
  else s

/-- Run `count` queued `updateScrollEffects` callbacks, one after the
other. -/
def runCallbacks : Nat → ScrollEffects → ScrollEffects
  | 0, s => s
  | count + 1, s => runCallbacks count (updateScrollEffects s)

/-- What the scroll listener reacts to: the window is scrolled to an offset
and the `scroll` event fires, or the browser reaches an animation frame and
runs the callbacks queued for it. -/
inductive ScrollEvent where
  | scroll (pageYOffset : Int)
  | animationFrame
  deriving DecidableEq, Repr

/-- The reaction to one event. At an animation frame the browser empties its
list of callbacks and runs those that were in it. -/
def ScrollEffects.step (s : ScrollEffects) : ScrollEvent → ScrollEffects
  | .scroll pageYOffset => requestTick { s with pageYOffset := pageYOffset }
  | .animationFrame => runCallbacks s.pendingCallbacks { s with pendingCallbacks := 0 }

/-- The state after a run of events. -/
def ScrollEffects.run (s : ScrollEffects) (events : List ScrollEvent) : ScrollEffects :=
  events.foldl ScrollEffects.step s

/-- The guard tells whether a callback is queued: one when `ticking` is set,
none otherwise. -/
def ScrollEffects.Consistent (s : ScrollEffects) : Prop :=
  s.pendingCallbacks = if s.ticking then 1 else 0

/-! ## Theorems: page controller -/

theorem count_pageId_le_one (doc : List Element) (pid : String) (hd : DistinctPageIds doc)
    (hp : pid ≠ "") : ((doc.filter (·.isPage)).map (·.id)).count pid ≤ 1 := by
  have h := List.nodup_iff_count_le_one.mp hd pid
  rwa [List.count_filter (by simpa using hp)] at h

theorem firstWithId_hideAllPages (pid : String) (doc : List Element) :
    firstWithId pid (hideAllPages doc) = firstWithId pid doc := by
  induction doc with
  | nil => rfl
  | cons e es ih =>
    simp only [hideAllPages, List.map_cons, firstWithId] at ih ⊢
    rw [ih]
    have : (if e.isPage = true then { e with active := false } else e).id = e.id := by
      split <;> rfl
    rw [this]

theorem showPage_document_of_resolved (doc : List Element) (pid : String) (i : Nat)
    (e : Element) (hfirst : firstWithId pid doc = some i) (hget : doc[i]? = some e)
    (hpage : e.isPage = true)
    (hcount : ((doc.filter (·.isPage)).map (·.id)).count pid ≤ 1) :
    updateActiveNavLink ((hideAllPages doc).modify (fun e => { e with active := true }) i) pid
      = shownDocument doc pid := by
  induction doc generalizing i with
  | nil => simp at hget
  | cons x xs ih =>
    by_cases heq : x.id = pid
    · -- the head is the element found: it is the page, and no later page has this id
      simp only [firstWithId, heq, if_true, Option.some.injEq] at hfirst
      subst hfirst
      simp only [List.getElem?_cons_zero, Option.some.injEq] at hget
      subst hget
      have hrest : ∀ y ∈ xs, y.isPage = true → y.id ≠ pid := by
        intro y hy hyp hye
        have : ((xs.filter (·.isPage)).map (·.id)).count pid ≥ 1 := by
          apply List.count_pos_iff.mpr
          exact List.mem_map.mpr ⟨y, List.mem_filter.mpr ⟨hy, by simpa using hyp⟩, hye⟩
        simp [List.filter_cons, hpage, List.count_cons, heq] at hcount
        omega
      simp only [hideAllPages, List.map_cons, List.modify_zero_cons, updateActiveNavLink,
        shownDocument, hpage, if_true]
      refine congrArg₂ _ ?_ ?_
      · by_cases hn : x.isNavLink = true <;> simp [hn, heq]
      · simp only [List.map_map]
        apply List.map_congr_left
        intro y hy
        by_cases hn : y.isNavLink = true
        · by_cases hyp : y.isPage = true <;> simp [hn, hyp]
        · by_cases hyp : y.isPage = true
          · simp [hn, hyp, hrest y hy hyp]
          · simp [hn, hyp]
    · simp only [firstWithId, heq, if_false, Option.map_eq_some'] at hfirst
      obtain ⟨j, hj, rfl⟩ := hfirst
      simp only [List.getElem?_cons_succ] at hget
      have hcount' : ((xs.filter (·.isPage)).map (·.id)).count pid ≤ 1 := by
        by_cases hxp : x.isPage = true
        · simp [List.filter_cons, hxp, List.count_cons, heq] at hcount
          exact hcount
        · simp [List.filter_cons, hxp] at hcount
          exact hcount
      have := ih j hj hget hcount'
      simp only [hideAllPages, List.map_cons, List.modify_succ_cons, updateActiveNavLink,
        shownDocument] at this ⊢
      rw [this]
      refine congrArg₂ _ ?_ rfl
      by_cases hn : x.isNavLink = true
      · by_cases hxp : x.isPage = true <;> simp [hn, hxp]
      · by_cases hxp : x.isPage = true
        · simp [hn, hxp, heq]
        · simp [hn, hxp]

theorem modify_map_eq {α β : Type} (g : α → β) (f : α → α) (hf : ∀ x, g (f x) = g x)
    (l : List α) (i : Nat) : (l.modify f i).map g = l.map g := by
  induction l generalizing i with
  | nil => simp
  | cons a as ih =>
    cases i with
    | zero => simp [hf]
    | succ n => simp [ih]

theorem skeleton_hideAllPages (doc : List Element) :
    skeleton (hideAllPages doc) = skeleton doc := by
  simp only [skeleton, hideAllPages, List.map_map]
  apply List.map_congr_left
  intro e _
  simp only [Function.comp]
  split <;> rfl

theorem skeleton_updateActiveNavLink (doc : List Element) (pid : String) :
    skeleton (updateActiveNavLink doc pid) = skeleton doc := by
  simp only [skeleton, updateActiveNavLink, List.map_map]
  apply List.map_congr_left
  intro e _
  simp only [Function.comp]
  split <;> rfl

theorem skeleton_showPage (pm : PageManager) (pid : String) (u : Bool) :
    skeleton (showPage pm pid u).document = skeleton pm.document := by
  unfold showPage
  simp only
  split
  · exact skeleton_hideAllPages _
  · rw [skeleton_updateActiveNavLink]
    unfold skeleton
    rw [modify_map_eq (fun e : Element => (e.id, e.isPage, e.isNavLink, e.href))
      (fun e => { e with active := true }) (fun _ => rfl)]
    exact skeleton_hideAllPages _

theorem skeleton_showPages (pm : PageManager) (calls : List (String × Bool)) :
    skeleton (showPages pm calls).document = skeleton pm.document := by
  induction calls generalizing pm with
  | nil => rfl
  | cons c cs ih =>
    simp only [showPages, List.foldl_cons] at ih ⊢
    rw [ih, skeleton_showPage]

theorem firstWithId_congr (pid : String) :
    ∀ d₁ d₂ : List Element, d₁.map (·.id) = d₂.map (·.id) →
      firstWithId pid d₁ = firstWithId pid d₂
  | [], [], _ => rfl
  | [], _ :: _, h => by simp at h
  | _ :: _, [], h => by simp at h
  | a :: as, b :: bs, h => by
    simp only [List.map_cons, List.cons.injEq] at h
    simp only [firstWithId, h.1, firstWithId_congr pid as bs h.2]

theorem skeleton_ids {d₁ d₂ : List Element} (h : skeleton d₁ = skeleton d₂) :
    d₁.map (·.id) = d₂.map (·.id) := by
  have := congrArg (List.map Prod.fst) h
  simpa [skeleton, List.map_map, Function.comp] using this

theorem skeleton_getElem? {d₁ d₂ : List Element} (h : skeleton d₁ = skeleton d₂) (i : Nat) :
    (d₁[i]?).map (fun e => (e.id, e.isPage, e.isNavLink, e.href))
      = (d₂[i]?).map (fun e => (e.id, e.isPage, e.isNavLink, e.href)) := by
  have := congrArg (fun l => l[i]?) h
  simpa [skeleton, List.getElem?_map] using this

theorem skeleton_pageIds {d₁ d₂ : List Element} (h : skeleton d₁ = skeleton d₂) :
    (d₁.filter (·.isPage)).map (·.id) = (d₂.filter (·.isPage)).map (·.id) := by
  have h1 : ∀ d : List Element, (d.filter (·.isPage)).map (·.id)
      = ((skeleton d).filter (fun s => s.2.1)).map (·.1) := by
    intro d
    simp only [skeleton, List.filter_map, List.map_map]
    rfl
  rw [h1, h1, h]

theorem distinctPageIds_of_skeleton {d₁ d₂ : List Element} (h : skeleton d₁ = skeleton d₂)
    (hd : DistinctPageIds d₂) : DistinctPageIds d₁ := by
  unfold DistinctPageIds
  rw [skeleton_pageIds h]; exact hd

theorem selfLinkedPages_of_skeleton {d₁ d₂ : List Element} (h : skeleton d₁ = skeleton d₂)
    (hs : SelfLinkedPages d₂) : SelfLinkedPages d₁ := by
  intro e he hp hn
  have hm : (e.id, e.isPage, e.isNavLink, e.href) ∈ skeleton d₁ :=
    List.mem_map.mpr ⟨e, he, rfl⟩
  rw [h] at hm
  obtain ⟨e', he', heq⟩ := List.mem_map.mp hm
  simp only [Prod.mk.injEq] at heq
  obtain ⟨h1, h2, h3, h4⟩ := heq
  rw [← h1, ← h4]
  exact hs e' he' (h2 ▸ hp) (h3 ▸ hn)

/-- What `ResolvesToPage` says, spelled out. -/
theorem resolvesToPage_iff (doc : List Element) (pid : String) :
    ResolvesToPage doc pid ↔
      pid ≠ "" ∧ ∃ i e, firstWithId pid doc = some i ∧ doc[i]? = some e ∧ e.isPage = true := by
  unfold ResolvesToPage resolve getElementById
  by_cases hp : pid = ""
  · simp [hp]
  · simp only [hp, if_false, ne_eq, not_false_eq_true, true_and]
    constructor
    · rintro ⟨e, he, hpage⟩
      cases hf : firstWithId pid doc with
      | none => rw [hf] at he; cases he
      | some i =>
        rw [hf] at he
        exact ⟨i, e, rfl, he, hpage⟩
    · rintro ⟨i, e, hf, hg, hpage⟩
      exact ⟨e, by rw [hf]; exact hg, hpage⟩

theorem resolvesToPage_of_skeleton {d₁ d₂ : List Element} (h : skeleton d₁ = skeleton d₂)
    (pid : String) (hr : ResolvesToPage d₂ pid) : ResolvesToPage d₁ pid := by
  rw [resolvesToPage_iff] at hr ⊢
  obtain ⟨hne, i, e, hf, hg, hpage⟩ := hr
  refine ⟨hne, i, ?_⟩
  have hsk := skeleton_getElem? h i
  rw [hg] at hsk
  cases hg₁ : d₁[i]? with
  | none => rw [hg₁] at hsk; cases hsk
  | some e₁ =>
    rw [hg₁] at hsk
    simp only [Option.map_some', Option.some.injEq, Prod.mk.injEq] at hsk
    exact ⟨e₁, by rw [firstWithId_congr pid d₁ d₂ (skeleton_ids h)]; exact hf, rfl,
      hsk.2.1 ▸ hpage⟩

theorem firstWithId_id (pid : String) (doc : List Element) (i : Nat) (e : Element)
    (hf : firstWithId pid doc = some i) (hg : doc[i]? = some e) : e.id = pid := by
  induction doc generalizing i with
  | nil => simp at hg
  | cons x xs ih =>
    by_cases heq : x.id = pid
    · simp only [firstWithId, heq, if_true, Option.some.injEq] at hf
      subst hf
      simp only [List.getElem?_cons_zero, Option.some.injEq] at hg
      rw [← hg]; exact heq
    · simp only [firstWithId, heq, if_false, Option.map_eq_some'] at hf
      obtain ⟨j, hj, rfl⟩ := hf
      exact ih j hj (by simpa using hg)

theorem hash_append_inj (a b : String) (h : "#" ++ a = "#" ++ b) : a = b := by
  have := congrArg String.data h
  simp only [String.data_append, List.append_cancel_left_eq] at this
  exact String.ext this

/-- One call of `showPage` with an id that resolves to a page. -/
theorem showPage_of_resolved (pm : PageManager) (pid : String) (u : Bool)
    (hd : DistinctPageIds pm.document) (hnav : SelfLinkedPages pm.document)
    (hr : ResolvesToPage pm.document pid) :
    (activePages (showPage pm pid u)).length = 1 ∧
      (∀ e ∈ (showPage pm pid u).document, e.isPage = true → (e.active = true ↔ e.id = pid)) ∧
      (showPage pm pid u).currentPage = pid := by
  obtain ⟨hne, i, e, hf, hg, hpage⟩ := (resolvesToPage_iff _ _).mp hr
  have hcount := count_pageId_le_one pm.document pid hd hne
  have hdoc := showPage_document_of_resolved pm.document pid i e hf hg hpage hcount
  have hget : getElementById (hideAllPages pm.document) pid = some i := by
    simp only [getElementById, hne, if_false, firstWithId_hideAllPages, hf]
  have hshow : showPage pm pid u =
      { document := shownDocument pm.document pid, currentPage := pid,
        history := if u then pm.history ++ [pid] else pm.history } := by
    unfold showPage
    simp only [hget, hdoc]
  have hactive : ∀ x ∈ pm.document, x.isPage = true →
      ((if x.isNavLink then decide (x.href = some ("#" ++ pid)) else decide (x.id = pid))
        = decide (x.id = pid)) := by
    intro x hx hxp
    by_cases hn : x.isNavLink = true
    · simp only [hn, if_true]
      rw [hnav x hx hxp hn]
      by_cases hxe : x.id = pid
      · simp [hxe]
      · have : ¬ ("#" ++ x.id = "#" ++ pid) := fun h => hxe (hash_append_inj _ _ h)
        simp [hxe, this]
    · simp [hn]
  rw [hshow]
  refine ⟨?_, ?_, rfl⟩
  · -- exactly one page carries the id
    have hone : ((pm.document.filter (·.isPage)).map (·.id)).count pid = 1 := by
      apply le_antisymm hcount
      apply List.count_pos_iff.mpr
      exact List.mem_map.mpr ⟨e, List.mem_filter.mpr ⟨List.getElem?_mem hg, by simpa using hpage⟩,
        firstWithId_id pid _ i e hf hg⟩
    have hfilter : (shownDocument pm.document pid).filter (fun e => e.isPage && e.active)
        = (pm.document.filter (fun x => x.isPage && decide (x.id = pid))).map
            (fun x => if x.isNavLink then
                { x with active := decide (x.href = some ("#" ++ pid)) }
              else if x.isPage then { x with active := decide (x.id = pid) } else x) := by
      simp only [shownDocument, List.filter_map]
      congr 1
      apply List.filter_congr
      intro x hx
      simp only [Function.comp]
      by_cases hxp : x.isPage = true
      · have := hactive x hx hxp
        by_cases hn : x.isNavLink = true
        · simp only [hn, if_true] at this ⊢
          simp [hxp, this]
        · simp [hn, hxp]
      · by_cases hn : x.isNavLink = true <;> simp [hn, hxp]
    simp only [activePages, hfilter, List.length_map]
    rw [← hone, List.count, List.countP_map, List.countP_filter, List.countP_eq_length_filter]
    congr 1
    apply List.filter_congr
    intro x _
    by_cases hx : x.id = pid <;> simp [hx]
  · intro e' he' hp'
    obtain ⟨x, hx, rfl⟩ := List.mem_map.mp he'
    by_cases hn : x.isNavLink = true
    · simp only [hn, if_true] at hp' ⊢
      have := hactive x hx hp'
      simp only [hn, if_true] at this
      simp [this]
    · by_cases hxp : x.isPage = true
      · simp [hn, hxp]
      · simp [hn, hxp] at hp'

/-- C1, as amended. After any run of `showPage` calls whose last one names a
registered page, with either value of `updateHistory` in every call: if the
ids of the pages are pairwise distinct, `getElementById` resolves the last id
to that page (no element that is not a page carries the id ahead of it), and
a page that is also a nav link links to itself, then exactly one page carries
`active`, it is the page named by the last call, and `currentPage` is that
id. The earlier calls need not name registered pages, so this covers every
run of calls with valid ids. -/
theorem showPage_sequence_exactly_one_active (pm : PageManager)
    (calls : List (String × Bool)) (pageId : String) (updateHistory : Bool)
    (hids : DistinctPageIds pm.document) (hlinks : SelfLinkedPages pm.document)
    (hlast : ResolvesToPage pm.document pageId) :
    IsRegisteredPageId pm.document pageId ∧
    (activePages (showPage (showPages pm calls) pageId updateHistory)).length = 1 ∧
    (∀ e ∈ (showPage (showPages pm calls) pageId updateHistory).document,
      e.isPage = true → (e.active = true ↔ e.id = pageId)) ∧
    (showPage (showPages pm calls) pageId updateHistory).currentPage = pageId := by
  have hsk := skeleton_showPages pm calls
  refine ⟨?_, showPage_of_resolved (showPages pm calls) pageId updateHistory
    (distinctPageIds_of_skeleton hsk hids) (selfLinkedPages_of_skeleton hsk hlinks)
    (resolvesToPage_of_skeleton hsk pageId hlast)⟩
  obtain ⟨hne, i, e, hf, hg, hpage⟩ := (resolvesToPage_iff _ _).mp hlast
  exact ⟨hne, e, List.getElem?_mem hg, hpage, firstWithId_id pageId _ i e hf hg⟩

theorem showPage_sequence_exactly_one_active_witness :
    IsRegisteredPageId samplePageManager.document "contact" ∧
    (activePages (showPage (showPages samplePageManager
        [("services", true), ("about", false)]) "contact" true)).length = 1 ∧
    (∀ e ∈ (showPage (showPages samplePageManager
        [("services", true), ("about", false)]) "contact" true).document,
      e.isPage = true → (e.active = true ↔ e.id = "contact")) ∧
    (showPage (showPages samplePageManager
        [("services", true), ("about", false)]) "contact" true).currentPage = "contact" :=
  showPage_sequence_exactly_one_active samplePageManager
    [("services", true), ("about", false)] "contact" true
    (by decide) (by decide) (by decide)

/-- C1, as stated, fails in two ways. When an element that is not a page
carries the id of a page ahead of it, `getElementById` returns that element:
it gets `active` and no page is active, although the id is that of a
registered page and the ids of the pages are pairwise distinct. And when a
page is also a nav link with an `href` to another page, `updateActiveNavLink`
takes `active` away from it again. -/
theorem showPage_shadowed_id_activates_no_page :
    (DistinctPageIds shadowedDocument ∧ IsRegisteredPageId shadowedDocument "home" ∧
      activePages (showPage
        { document := shadowedDocument, currentPage := "home", history := [] } "home") = []) ∧
    (DistinctPageIds linkedPageDocument ∧ IsRegisteredPageId linkedPageDocument "home" ∧
      activePages (showPage
        { document := linkedPageDocument, currentPage := "home", history := [] } "home")
        = []) := by
  decide

/-- C2. `showPage` with an id that resolves to no element is not a no-op on
page state: the loop that hides every page runs before the target is looked
up, so the page that was active is hidden and no page is active afterwards
(`currentPage` and the history stay as they were). -/
theorem showPage_unknown_id_hides_active_page :
    getElementById samplePageManager.document "pricing" = none ∧
    (activePages samplePageManager).map (·.id) = ["home"] ∧
    activePages (showPage samplePageManager "pricing") = [] ∧
    (showPage samplePageManager "pricing").currentPage = "home" ∧
    (showPage samplePageManager "pricing").history = samplePageManager.history := by
  decide

/-! ## Theorems: the e-mail pattern -/

namespace Regex

theorem matches_nil_of_nullable (r : Regex) (h : nullable r = true) : Matches r [] := by
  induction r with
  | empty => simp [nullable] at h
  | eps => exact Matches.eps
  | cls p => simp [nullable] at h
  | seq r s ihr ihs =>
    simp only [nullable, Bool.and_eq_true] at h
    exact Matches.seq (ihr h.1) (ihs h.2)
  | alt r s ihr ihs =>
    simp only [nullable, Bool.or_eq_true] at h
    rcases h with h | h
    · exact Matches.altLeft (ihr h)
    · exact Matches.altRight (ihs h)
  | star r _ => exact Matches.starNil

theorem matches_cons_of_deriv (r : Regex) (c : Char) (w : List Char)
    (h : Matches (deriv r c) w) : Matches r (c :: w) := by
  induction r generalizing w with
  | empty => cases h
  | eps => cases h
  | cls p =>
    simp only [deriv] at h
    split at h
    · cases h; exact Matches.cls (by assumption)
    · cases h
  | seq r s ihr ihs =>
    simp only [deriv] at h
    split at h
    · cases h with
      | altLeft h1 =>
        cases h1 with
        | seq hu hv => exact Matches.seq (ihr _ hu) hv
      | altRight h2 =>
        have := Matches.seq (matches_nil_of_nullable r (by assumption)) (ihs _ h2)
        simpa using this
    · cases h with
      | seq hu hv => exact Matches.seq (ihr _ hu) hv
  | alt r s ihr ihs =>
    simp only [deriv] at h
    cases h with
    | altLeft h1 => exact Matches.altLeft (ihr _ h1)
    | altRight h2 => exact Matches.altRight (ihs _ h2)
  | star r ih =>
    simp only [deriv] at h
    cases h with
    | seq hu hv => exact Matches.starCons (ih _ hu) hv

/-- Soundness of the matcher: what it accepts is denoted by the expression. -/
theorem matches_of_matchesChars (r : Regex) (w : List Char)
    (h : matchesChars r w = true) : Matches r w := by
  induction w generalizing r with
  | nil => exact matches_nil_of_nullable r h
  | cons c cs ih => exact matches_cons_of_deriv r c cs (ih _ h)

theorem nullable_of_matches_nil (r : Regex) (w : List Char) (h : Matches r w) (hw : w = []) :
    nullable r = true := by
  induction h with
  | eps => rfl
  | cls _ => simp at hw
  | seq _ _ ihu ihv =>
    simp only [List.append_eq_nil] at hw
    simp [nullable, ihu hw.1, ihv hw.2]
  | altLeft _ ih => simp [nullable, ih hw]
  | altRight _ ih => simp [nullable, ih hw]
  | starNil => rfl
  | starCons _ _ _ _ => rfl

theorem deriv_of_matches_cons (r : Regex) (x : List Char) (h : Matches r x) (c : Char)
    (w : List Char) (hx : x = c :: w) : Matches (deriv r c) w := by
  induction h generalizing w with
  | eps => simp at hx
  | cls hp =>
    simp only [List.cons.injEq] at hx
    obtain ⟨rfl, rfl⟩ := hx
    simp only [deriv, hp, if_true]
    exact Matches.eps
  | @seq r s u v hu hv ihu ihv =>
    cases u with
    | nil =>
      have hn := nullable_of_matches_nil r [] hu rfl
      simp only [deriv, hn, if_true]
      exact Matches.altRight (ihv w (by simpa using hx))
    | cons a u' =>
      simp only [List.cons_append, List.cons.injEq] at hx
      obtain ⟨rfl, rfl⟩ := hx
      have h1 := Matches.seq (ihu u' rfl) hv
      simp only [deriv]
      split
      · exact Matches.altLeft h1
      · exact h1
  | altLeft _ ih => exact Matches.altLeft (ih w hx)
  | altRight _ ih => exact Matches.altRight (ih w hx)
  | starNil => simp at hx
  | @starCons r u v hu hv ihu ihv =>
    cases u with
    | nil => exact ihv w (by simpa using hx)
    | cons a u' =>
      simp only [List.cons_append, List.cons.injEq] at hx
      obtain ⟨rfl, rfl⟩ := hx
      exact Matches.seq (ihu u' rfl) hv

/-- Completeness of the matcher. -/
theorem matchesChars_of_matches (r : Regex) (w : List Char) (h : Matches r w) :
    matchesChars r w = true := by
  induction w generalizing r with
  | nil => exact nullable_of_matches_nil r [] h rfl
  | cons c cs ih => exact ih _ (deriv_of_matches_cons r _ h c cs rfl)

theorem matchesChars_iff (r : Regex) (w : List Char) :
    matchesChars r w = true ↔ Matches r w :=
  ⟨matches_of_matchesChars r w, matchesChars_of_matches r w⟩

theorem matches_cls_iff (p : Char → Bool) (w : List Char) :
    Matches (.cls p) w ↔ ∃ c, w = [c] ∧ p c = true := by
  constructor
  · intro h; cases h with
    | cls hp => exact ⟨_, rfl, hp⟩
  · rintro ⟨c, rfl, hp⟩; exact Matches.cls hp

theorem matches_seq_iff (r s : Regex) (w : List Char) :
    Matches (.seq r s) w ↔ ∃ u v, w = u ++ v ∧ Matches r u ∧ Matches s v := by
  constructor
  · intro h; cases h with
    | seq hu hv => exact ⟨_, _, rfl, hu, hv⟩
  · rintro ⟨u, v, rfl, hu, hv⟩; exact Matches.seq hu hv

theorem all_of_matches_star_cls (p : Char → Bool) (x : Regex) (w : List Char)
    (h : Matches x w) (hx : x = .star (.cls p)) : ∀ c ∈ w, p c = true := by
  induction h with
  | eps => simp
  | cls _ => cases hx
  | seq _ _ _ _ => cases hx
  | altLeft _ _ => cases hx
  | altRight _ _ => cases hx
  | starNil => simp
  | @starCons r u v hu _ _ ihv =>
    cases hx
    intro c hc
    rcases List.mem_append.mp hc with h1 | h2
    · obtain ⟨d, rfl, hd⟩ := (matches_cls_iff p u).mp hu
      simp only [List.mem_singleton] at h1
      rw [h1]; exact hd
    · exact ihv rfl c h2

theorem matches_star_cls_of_all (p : Char → Bool) (w : List Char)
    (h : ∀ c ∈ w, p c = true) : Matches (.star (.cls p)) w := by
  induction w with
  | nil => exact Matches.starNil
  | cons c cs ih =>
    have h1 : Matches (.cls p) [c] := Matches.cls (h c (List.mem_cons_self _ _))
    have h2 := ih (fun d hd => h d (List.mem_cons_of_mem _ hd))
    exact Matches.starCons h1 h2

/-- The strings `[p]+` denotes: the non-empty strings of characters of the
class. -/
theorem matches_plus_cls_iff (p : Char → Bool) (w : List Char) :
    Matches (plus (.cls p)) w ↔ w ≠ [] ∧ ∀ c ∈ w, p c = true := by
  unfold plus
  rw [matches_seq_iff]
  constructor
  · rintro ⟨u, v, rfl, hu, hv⟩
    obtain ⟨d, rfl, hd⟩ := (matches_cls_iff p u).mp hu
    refine ⟨by simp, ?_⟩
    intro c hc
    rcases List.mem_append.mp hc with h1 | h2
    · simp only [List.mem_singleton] at h1
      rw [h1]; exact hd
    · exact all_of_matches_star_cls p _ v hv rfl c h2
  · rintro ⟨hne, hall⟩
    cases w with
    | nil => exact absurd rfl hne
    | cons c cs =>
      refine ⟨[c], cs, rfl, Matches.cls (hall c (List.mem_cons_self _ _)), ?_⟩
      exact matches_star_cls_of_all p cs (fun d hd => hall d (List.mem_cons_of_mem _ hd))

end Regex

/-- What the e-mail pattern accepts: a local part, `@`, a domain, `.` and a
last part, the three parts non-empty and free of white space and `@`. -/
theorem emailRegex_test_iff (s : String) :
    emailRegex.test s = true ↔
      ∃ a b c : List Char, s.data = a ++ '@' :: (b ++ '.' :: c) ∧
        a ≠ [] ∧ b ≠ [] ∧ c ≠ [] ∧
        (∀ x ∈ a, notSpaceNorAt x = true) ∧ (∀ x ∈ b, notSpaceNorAt x = true) ∧
        (∀ x ∈ c, notSpaceNorAt x = true) := by
  unfold Regex.test emailRegex
  rw [Regex.matchesChars_iff]
  simp only [Regex.matches_seq_iff, Regex.matches_plus_cls_iff, Regex.matches_cls_iff]
  constructor
  · rintro ⟨a, _, h1, ⟨ha, ha'⟩, _, _, h2, ⟨x, rfl, hx⟩, b, _, h3, ⟨hb, hb'⟩, _, c, h4,
      ⟨y, rfl, hy⟩, hc, hc'⟩
    simp only [decide_eq_true_eq] at hx hy
    subst hx hy h4 h3 h2
    exact ⟨a, b, c, by simpa using h1, ha, hb, hc, ha', hb', hc'⟩
  · rintro ⟨a, b, c, h, ha, hb, hc, ha', hb', hc'⟩
    exact ⟨a, _, h, ⟨ha, ha'⟩, ['@'], _, rfl, ⟨'@', rfl, by simp⟩, b, _, rfl, ⟨hb, hb'⟩,
      ['.'], c, rfl, ⟨'.', rfl, by simp⟩, hc, hc'⟩

/-! ## Theorems: the document tree -/

theorem modify_append_left {α : Type} (f : α → α) (l₁ l₂ : List α) (k : Nat)
    (h : k < l₁.length) : (l₁ ++ l₂).modify f k = l₁.modify f k ++ l₂ := by
  induction l₁ generalizing k with
  | nil => simp at h
  | cons a as ih =>
    cases k with
    | zero => simp
    | succ n =>
      simp only [List.length_cons, Nat.add_lt_add_iff_right] at h
      simp [ih n h]

theorem modify_append_right {α : Type} (f : α → α) (l₁ l₂ : List α) (k : Nat)
    (h : l₁.length ≤ k) : (l₁ ++ l₂).modify f k = l₁ ++ l₂.modify f (k - l₁.length) := by
  induction l₁ generalizing k with
  | nil => simp
  | cons a as ih =>
    cases k with
    | zero => simp at h
    | succ n =>
      simp only [List.length_cons, Nat.add_le_add_iff_right] at h
      simp [ih n h]

theorem modify_modify_same {α : Type} (f g : α → α) (i : Nat) (l : List α) :
    (l.modify f i).modify g i = l.modify (g ∘ f) i := by
  induction l generalizing i with
  | nil => simp
  | cons a as ih =>
    cases i with
    | zero => simp
    | succ n => simp [ih]

theorem modify_congr_at {α : Type} (f g : α → α) (i : Nat) (l : List α)
    (h : ∀ a, l[i]? = some a → f a = g a) : l.modify f i = l.modify g i := by
  induction l generalizing i with
  | nil => simp
  | cons a as ih =>
    cases i with
    | zero => simp [h a (by simp)]
    | succ n => simp; exact ih n (fun b hb => h b (by simpa using hb))

namespace Dom

theorem controls_mapControl (f : Field → Field) (k : Nat) (d : Dom) :
    (mapControl f k d).controls = d.controls.modify f k := by
  induction d generalizing k with
  | nil => simp [mapControl, controls]
  | control field next ih =>
    cases k with
    | zero => simp [mapControl, controls]
    | succ n => simp [mapControl, controls, ih]
  | message text next ih => simp [mapControl, controls, ih]
  | element children next ihc ihn =>
    simp only [mapControl]
    split
    · rename_i h
      simp only [controls, ihc, modify_append_left f _ _ k h]
    · rename_i h
      simp only [controls, ihn, modify_append_right f _ _ k (Nat.le_of_not_lt h)]

theorem messages_mapControl (f : Field → Field) (k : Nat) (d : Dom) :
    (mapControl f k d).messages = d.messages := by
  induction d generalizing k with
  | nil => simp [mapControl]
  | control field next ih =>
    cases k with
    | zero => simp [mapControl, messages]
    | succ n => simp [mapControl, messages, ih]
  | message text next ih => simp [mapControl, messages, ih]
  | element children next ihc ihn =>
    simp only [mapControl]
    split <;> simp [messages, ihc, ihn]

theorem controls_mapControls (f : Field → Field) (d : Dom) :
    (mapControls f d).controls = d.controls.map f := by
  induction d with
  | nil => rfl
  | control field next ih => simp [mapControls, controls, ih]
  | message text next ih => simp [mapControls, controls, ih]
  | element children next ihc ihn => simp [mapControls, controls, ihc, ihn]

theorem controls_removeFirstMessage (d : Dom) :
    d.removeFirstMessage.controls = d.controls := by
  induction d with
  | nil => rfl
  | control field next ih => simp [removeFirstMessage, controls, ih]
  | message text next ih => simp [removeFirstMessage, controls]
  | element children next ihc ihn =>
    simp only [removeFirstMessage]
    split <;> simp [controls, ihc, ihn]

theorem messages_removeFirstMessage (d : Dom) :
    d.removeFirstMessage.messages = d.messages.tail := by
  induction d with
  | nil => rfl
  | control field next ih => simp [removeFirstMessage, messages, ih]
  | message text next ih => simp [removeFirstMessage, messages]
  | element children next ihc ihn =>
    simp only [removeFirstMessage]
    split
    · rename_i h
      simp [messages, ihn, h]
    · rename_i h
      simp only [messages, ihc]
      cases hm : children.messages with
      | nil => exact absurd hm h
      | cons a as => simp

theorem controls_appendMessage (text : String) (d : Dom) :
    (d.appendMessage text).controls = d.controls := by
  induction d with
  | nil => rfl
  | control field next ih => simp [appendMessage, controls, ih]
  | message other next ih => simp [appendMessage, controls, ih]
  | element children next ihc ihn => simp [appendMessage, controls, ihn]

theorem messages_appendMessage (text : String) (d : Dom) :
    (d.appendMessage text).messages = d.messages ++ [text] := by
  induction d with
  | nil => rfl
  | control field next ih => simp [appendMessage, messages, ih]
  | message other next ih => simp [appendMessage, messages, ih]
  | element children next ihc ihn => simp [appendMessage, messages, ihn]

theorem isChild_mapControl (f : Field → Field) (k j : Nat) (d : Dom) :
    (mapControl f k d).isChild j = d.isChild j := by
  induction d generalizing k j with
  | nil => simp [mapControl]
  | control field next ih =>
    cases k with
    | zero => cases j <;> simp [mapControl, isChild]
    | succ n => cases j <;> simp [mapControl, isChild, ih]
  | message text next ih => simp [mapControl, isChild, ih]
  | element children next ihc ihn =>
    simp only [mapControl]
    split <;> simp [isChild, controls_mapControl, ihn]

theorem isChild_removeFirstMessage (j : Nat) (d : Dom) :
    d.removeFirstMessage.isChild j = d.isChild j := by
  induction d generalizing j with
  | nil => rfl
  | control field next ih => cases j <;> simp [removeFirstMessage, isChild, ih]
  | message text next ih => simp [removeFirstMessage, isChild]
  | element children next ihc ihn =>
    simp only [removeFirstMessage]
    split <;> simp [isChild, controls_removeFirstMessage, ihn]

theorem isChild_appendMessage (text : String) (j : Nat) (d : Dom) :
    (d.appendMessage text).isChild j = d.isChild j := by
  induction d generalizing j with
  | nil => simp [appendMessage, isChild]
  | control field next ih => cases j <;> simp [appendMessage, isChild, ih]
  | message other next ih => simp [appendMessage, isChild, ih]
  | element children next ihc ihn => simp [appendMessage, isChild, ihn]

end Dom

namespace Dom

theorem length_descend (g : Nat → Dom → Dom) (hg : KeepsShape g) (k : Nat) (d : Dom) :
    (descend g k d).controls.length = d.controls.length := by
  induction d generalizing k with
  | nil => simp [descend]
  | control field next ih =>
    cases k with
    | zero => simp [descend]
    | succ n => simp [descend, controls, ih]
  | message text next ih => simp [descend, controls, ih]
  | element children next ihc ihn =>
    simp only [descend]
    split
    · split
      · simp [controls, (hg k children).1]
      · simp [controls, ihc]
    · simp [controls, ihn]

theorem length_atParent (g : Nat → Dom → Dom) (hg : KeepsShape g) (k : Nat) (d : Dom) :
    (atParent g k d).controls.length = d.controls.length := by
  unfold atParent
  split
  · exact (hg k d).1
  · exact length_descend g hg k d

theorem isChild_descend (g : Nat → Dom → Dom) (hg : KeepsShape g) (k j : Nat) (d : Dom) :
    (descend g k d).isChild j = d.isChild j := by
  induction d generalizing k j with
  | nil => simp [descend]
  | control field next ih =>
    cases k with
    | zero => simp [descend]
    | succ n => cases j <;> simp [descend, isChild, ih]
  | message text next ih => simp [descend, isChild, ih]
  | element children next ihc ihn =>
    simp only [descend]
    split
    · have hlen : (if children.isChild k = true then g k children
          else descend g k children).controls.length = children.controls.length := by
        split
        · exact (hg k children).1
        · exact length_descend g hg k children
      simp only [isChild, hlen]
    · simp only [isChild, ihn]

theorem isChild_atParent (g : Nat → Dom → Dom) (hg : KeepsShape g) (k j : Nat) (d : Dom) :
    (atParent g k d).isChild j = d.isChild j := by
  unfold atParent
  split
  · exact (hg k d).2 j
  · exact isChild_descend g hg k j d

theorem keepsShape_atParent (g : Nat → Dom → Dom) (hg : KeepsShape g) :
    KeepsShape (atParent g) :=
  fun k c => ⟨length_atParent g hg k c, fun j => isChild_atParent g hg k j c⟩

theorem controls_descend (g : Nat → Dom → Dom) (f : Field → Field)
    (hf : ∀ k c, (g k c).controls = c.controls.modify f k) (k : Nat) (d : Dom)
    (h : d.isChild k = false) : (descend g k d).controls = d.controls.modify f k := by
  induction d generalizing k with
  | nil => simp [descend, controls]
  | control field next ih =>
    cases k with
    | zero => simp [isChild] at h
    | succ n =>
      simp only [isChild] at h
      simp [descend, controls, ih n h]
  | message text next ih =>
    simp only [isChild] at h
    simp [descend, controls, ih k h]
  | element children next ihc ihn =>
    simp only [descend]
    split
    · rename_i hk
      simp only [controls, modify_append_left f _ _ k hk]
      congr 1
      split
      · exact hf k children
      · rename_i hc
        exact ihc k (by simpa using hc)
    · rename_i hk
      simp only [isChild, hk, if_false] at h
      simp only [controls, modify_append_right f _ _ k (Nat.le_of_not_lt hk), ihn _ h]

theorem controls_atParent (g : Nat → Dom → Dom) (f : Field → Field)
    (hf : ∀ k c, (g k c).controls = c.controls.modify f k) (k : Nat) (d : Dom) :
    (atParent g k d).controls = d.controls.modify f k := by
  unfold atParent
  split
  · exact hf k d
  · rename_i h
    exact controls_descend g f hf k d (by simpa using h)

theorem findParent_descend (g : Nat → Dom → Dom) (hg : KeepsShape g) (k : Nat) (d : Dom) :
    findParent k (descend g k d) = (findParent k d).map fun p => (p.1, g (k - p.1) p.2) := by
  induction d generalizing k with
  | nil => simp [descend, findParent]
  | control field next ih =>
    cases k with
    | zero => simp [descend, findParent]
    | succ n =>
      simp only [descend, findParent, ih, Option.map_map]
      congr 1
      funext p
      simp
  | message text next ih => simp [descend, findParent, ih]
  | element children next ihc ihn =>
    simp only [descend]
    split
    · rename_i hk
      by_cases hc : children.isChild k = true
      · simp only [hc, if_true, findParent, (hg k children).1, hk, (hg k children).2]
        simp
      · have hc' : children.isChild k = false := by simpa using hc
        simp only [hc', Bool.false_eq_true, if_false, findParent, length_descend g hg, hk,
          if_true, isChild_descend g hg, ihc]
    · rename_i hk
      simp only [findParent, hk, if_false, ihn, Option.map_map]
      congr 1
      funext p
      simp only [Function.comp]
      congr 2
      omega

/-- The parent of a control after an update at that parent: the same place,
with the update applied. -/
theorem parentOf?_atParent (g : Nat → Dom → Dom) (hg : KeepsShape g) (k : Nat) (d : Dom) :
    parentOf? k (atParent g k d) = (parentOf? k d).map fun p => (p.1, g (k - p.1) p.2) := by
  unfold parentOf?
  rw [isChild_atParent g hg]
  by_cases h : d.isChild k = true
  · simp only [h, if_true, atParent, Option.map_some', Nat.sub_zero]
  · have h' : d.isChild k = false := by simpa using h
    simp only [h', Bool.false_eq_true, if_false, atParent]
    exact findParent_descend g hg k d

theorem findParent_spec (k : Nat) (d : Dom) (a : Nat) (c : Dom)
    (h : findParent k d = some (a, c)) :
    a ≤ k ∧ c.isChild (k - a) = true ∧ a + c.controls.length ≤ d.controls.length ∧
      ∀ t, t < c.controls.length → c.controls[t]? = d.controls[a + t]? := by
  induction d generalizing k a with
  | nil => simp [findParent] at h
  | control field next ih =>
    cases k with
    | zero => simp [findParent] at h
    | succ n =>
      simp only [findParent, Option.map_eq_some', Prod.mk.injEq] at h
      obtain ⟨⟨a', c'⟩, hp, ha, hc'⟩ := h
      simp only at ha hc'
      subst ha hc'
      obtain ⟨h1, h2, h3, h4⟩ := ih n a' hp
      refine ⟨by omega, by simpa using h2, by simp [controls]; omega, ?_⟩
      intro t ht
      rw [h4 t ht]
      simp only [controls]
      rw [show a' + 1 + t = (a' + t) + 1 by omega, List.getElem?_cons_succ]
  | message text next ih =>
    simp only [findParent] at h
    exact ih k a h
  | element children next ihc ihn =>
    simp only [findParent] at h
    split at h
    · rename_i hk
      split at h
      · rename_i hc
        simp only [Option.some.injEq, Prod.mk.injEq] at h
        obtain ⟨rfl, rfl⟩ := h
        refine ⟨Nat.zero_le _, by simpa using hc, by simp [controls], ?_⟩
        intro t ht
        simp only [controls, Nat.zero_add]
        rw [List.getElem?_append_left ht]
      · obtain ⟨h1, h2, h3, h4⟩ := ihc k a h
        refine ⟨h1, h2, by simp [controls]; omega, ?_⟩
        intro t ht
        rw [h4 t ht]
        simp only [controls]
        rw [List.getElem?_append_left (by omega)]
    · rename_i hk
      simp only [Option.map_eq_some', Prod.mk.injEq] at h
      obtain ⟨⟨a', c'⟩, hp, ha, hc'⟩ := h
      simp only at ha hc'
      subst ha hc'
      obtain ⟨h1, h2, h3, h4⟩ := ihn _ a' hp
      refine ⟨by omega, ?_, by simp [controls]; omega, ?_⟩
      · rw [show k - (a' + children.controls.length)
          = k - children.controls.length - a' by omega]
        exact h2
      · intro t ht
        rw [h4 t ht]
        simp only [controls]
        rw [List.getElem?_append_right (by omega)]
        congr 1
        omega

/-- Where the parent of a control lies: its controls are a stretch of the
controls of the tree, and the control is one of its children. -/
theorem parentOf?_spec (k : Nat) (d : Dom) (a : Nat) (c : Dom)
    (h : parentOf? k d = some (a, c)) :
    a ≤ k ∧ c.isChild (k - a) = true ∧ a + c.controls.length ≤ d.controls.length ∧
      ∀ t, t < c.controls.length → c.controls[t]? = d.controls[a + t]? := by
  unfold parentOf? at h
  split at h
  · rename_i hc
    simp only [Option.some.injEq, Prod.mk.injEq] at h
    obtain ⟨rfl, rfl⟩ := h
    exact ⟨Nat.zero_le _, by simpa using hc, by simp, fun t _ => by simp⟩
  · exact findParent_spec k d a c h

theorem isChild_lt (k : Nat) (d : Dom) (h : d.isChild k = true) : k < d.controls.length := by
  induction d generalizing k with
  | nil => simp [isChild] at h
  | control field next ih =>
    cases k with
    | zero => simp [controls]
    | succ n =>
      simp only [isChild] at h
      simp only [controls, List.length_cons]
      exact Nat.succ_lt_succ (ih n h)
  | message text next ih =>
    simp only [isChild] at h
    exact ih k h
  | element children next ihc ihn =>
    simp only [isChild] at h
    split at h
    · cases h
    · have := ihn _ h
      simp only [controls, List.length_append]
      omega

/-- The control is among the controls below its parent. -/
theorem parentOf?_control (k : Nat) (d : Dom) (a : Nat) (c : Dom)
    (h : parentOf? k d = some (a, c)) :
    k - a < c.controls.length ∧ c.controls[k - a]? = d.controls[k]? := by
  obtain ⟨h1, h2, _, h4⟩ := parentOf?_spec k d a c h
  have hlt := isChild_lt _ _ h2
  refine ⟨hlt, ?_⟩
  rw [h4 _ hlt]
  congr 1
  omega

end Dom

namespace Dom

theorem parentOf?_lt (k : Nat) (d : Dom) (a : Nat) (c : Dom)
    (h : parentOf? k d = some (a, c)) : k < d.controls.length := by
  obtain ⟨h1, h2, h3, _⟩ := parentOf?_spec k d a c h
  have := isChild_lt _ _ h2
  omega

theorem parentOf?_eq_none_of_ge (k : Nat) (d : Dom) (h : d.controls.length ≤ k) :
    parentOf? k d = none := by
  cases hp : parentOf? k d with
  | none => rfl
  | some p =>
    have := parentOf?_lt k d p.1 p.2 hp
    omega

theorem descend_of_ge (g : Nat → Dom → Dom) (k : Nat) (d : Dom)
    (h : d.controls.length ≤ k) : descend g k d = d := by
  induction d generalizing k with
  | nil => simp [descend]
  | control field next ih =>
    cases k with
    | zero => simp [descend]
    | succ n =>
      simp only [controls, List.length_cons, Nat.add_le_add_iff_right] at h
      simp [descend, ih n h]
  | message text next ih =>
    simp only [controls] at h
    simp [descend, ih k h]
  | element children next ihc ihn =>
    simp only [controls, List.length_append] at h
    have hk : ¬ k < children.controls.length := by omega
    simp only [descend, hk, if_false]
    rw [ihn _ (by omega)]

theorem findParent_element (k : Nat) (children next : Dom) :
    findParent k (element children next) =
      if k < children.controls.length then parentOf? k children
      else (findParent (k - children.controls.length) next).map fun p =>
        (p.1 + children.controls.length, p.2) := by
  simp only [findParent, parentOf?]

theorem descend_element (g : Nat → Dom → Dom) (k : Nat) (children next : Dom) :
    descend g k (element children next) =
      if k < children.controls.length then element (atParent g k children) next
      else element children (descend g (k - children.controls.length) next) := by
  simp only [descend, atParent]

theorem frame_aux (g : Nat → Dom → Dom) (hg : KeepsShape g) (d : Dom) :
    (∀ i j, (∀ a c, parentOf? i d = some (a, c) → ¬ (a ≤ j ∧ j < a + c.controls.length)) →
      (∀ b c, parentOf? j d = some (b, c) → ¬ (b ≤ i ∧ i < b + c.controls.length)) →
      parentOf? j (atParent g i d) = parentOf? j d) ∧
    (∀ i j, d.isChild i = false → d.isChild j = false →
      (∀ a c, findParent i d = some (a, c) → ¬ (a ≤ j ∧ j < a + c.controls.length)) →
      (∀ b c, findParent j d = some (b, c) → ¬ (b ≤ i ∧ i < b + c.controls.length)) →
      findParent j (descend g i d) = findParent j d) := by
  -- the first statement follows from the second, for any tree
  have main : ∀ d : Dom,
      (∀ i j, d.isChild i = false → d.isChild j = false →
        (∀ a c, findParent i d = some (a, c) → ¬ (a ≤ j ∧ j < a + c.controls.length)) →
        (∀ b c, findParent j d = some (b, c) → ¬ (b ≤ i ∧ i < b + c.controls.length)) →
        findParent j (descend g i d) = findParent j d) →
      (∀ i j, (∀ a c, parentOf? i d = some (a, c) → ¬ (a ≤ j ∧ j < a + c.controls.length)) →
        (∀ b c, parentOf? j d = some (b, c) → ¬ (b ≤ i ∧ i < b + c.controls.length)) →
        parentOf? j (atParent g i d) = parentOf? j d) := by
    intro d hT i j hij hji
    by_cases hi : d.isChild i = true
    · -- the parent of `i` is the root: `j` is not a control of the tree
      have hp : parentOf? i d = some (0, d) := by simp [parentOf?, hi]
      have hj : d.controls.length ≤ j := by
        have := hij 0 d hp
        omega
      rw [parentOf?_eq_none_of_ge j d hj]
      exact parentOf?_eq_none_of_ge _ _ (by rw [length_atParent g hg]; exact hj)
    · have hi' : d.isChild i = false := by simpa using hi
      by_cases hj : d.isChild j = true
      · have hp : parentOf? j d = some (0, d) := by simp [parentOf?, hj]
        have hlen : d.controls.length ≤ i := by
          have := hji 0 d hp
          omega
        simp only [atParent, hi', Bool.false_eq_true, if_false, descend_of_ge g i d hlen]
      · have hj' : d.isChild j = false := by simpa using hj
        have h1 : parentOf? j (atParent g i d) = findParent j (descend g i d) := by
          have h0 := isChild_atParent g hg i j d
          simp only [atParent, hi', Bool.false_eq_true, if_false] at h0
          simp only [parentOf?, atParent, hi', Bool.false_eq_true, if_false, h0, hj']
        have h2 : parentOf? j d = findParent j d := by
          simp only [parentOf?, hj', Bool.false_eq_true, if_false]
        have h3 : parentOf? i d = findParent i d := by
          simp only [parentOf?, hi', Bool.false_eq_true, if_false]
        rw [h1, h2]
        exact hT i j hi' hj' (fun a c h => hij a c (h3 ▸ h)) (fun b c h => hji b c (h2 ▸ h))
  induction d with
  | nil =>
    refine ⟨main nil ?_, ?_⟩ <;> intro i j _ _ _ _ <;> simp [descend]
  | control field next ih =>
    have hT : ∀ i j, (control field next).isChild i = false →
        (control field next).isChild j = false →
        (∀ a c, findParent i (control field next) = some (a, c) →
          ¬ (a ≤ j ∧ j < a + c.controls.length)) →
        (∀ b c, findParent j (control field next) = some (b, c) →
          ¬ (b ≤ i ∧ i < b + c.controls.length)) →
        findParent j (descend g i (control field next)) = findParent j (control field next) := by
      intro i j hi hj hij hji
      cases i with
      | zero => simp [isChild] at hi
      | succ i' =>
        cases j with
        | zero => simp [isChild] at hj
        | succ j' =>
          simp only [isChild] at hi hj
          simp only [descend, findParent]
          congr 1
          apply ih.2 i' j' hi hj
          · intro a c h
            have := hij (a + 1) c (by simp [findParent, h])
            omega
          · intro b c h
            have := hji (b + 1) c (by simp [findParent, h])
            omega
    exact ⟨main _ hT, hT⟩
  | message text next ih =>
    have hT : ∀ i j, (message text next).isChild i = false →
        (message text next).isChild j = false →
        (∀ a c, findParent i (message text next) = some (a, c) →
          ¬ (a ≤ j ∧ j < a + c.controls.length)) →
        (∀ b c, findParent j (message text next) = some (b, c) →
          ¬ (b ≤ i ∧ i < b + c.controls.length)) →
        findParent j (descend g i (message text next)) = findParent j (message text next) := by
      intro i j hi hj hij hji
      simp only [isChild] at hi hj
      simp only [descend, findParent]
      exact ih.2 i j hi hj (fun a c h => hij a c (by simpa [findParent] using h))
        (fun b c h => hji b c (by simpa [findParent] using h))
    exact ⟨main _ hT, hT⟩
  | element children next ihc ihn =>
    have hT : ∀ i j, (element children next).isChild i = false →
        (element children next).isChild j = false →
        (∀ a c, findParent i (element children next) = some (a, c) →
          ¬ (a ≤ j ∧ j < a + c.controls.length)) →
        (∀ b c, findParent j (element children next) = some (b, c) →
          ¬ (b ≤ i ∧ i < b + c.controls.length)) →
        findParent j (descend g i (element children next))
          = findParent j (element children next) := by
      intro i j hi hj hij hji
      rw [descend_element]
      by_cases hik : i < children.controls.length
      · simp only [hik, if_true]
        rw [findParent_element, findParent_element, length_atParent g hg]
        by_cases hjk : j < children.controls.length
        · simp only [hjk, if_true]
          apply ihc.1 i j
          · intro a c h
            exact hij a c (by rw [findParent_element]; simp [hik, h])
          · intro b c h
            exact hji b c (by rw [findParent_element]; simp [hjk, h])
        · simp only [hjk, if_false]
      · simp only [hik, if_false]
        rw [findParent_element, findParent_element]
        by_cases hjk : j < children.controls.length
        · simp only [hjk, if_true]
        · simp only [hjk, if_false]
          congr 1
          simp only [isChild, hik, hjk, if_false] at hi hj
          apply ihn.2 _ _ hi hj
          · intro a c h
            have := hij (a + children.controls.length) c
              (by rw [findParent_element]; simp [hik, h])
            omega
          · intro b c h
            have := hji (b + children.controls.length) c
              (by rw [findParent_element]; simp [hjk, h])
            omega
    exact ⟨main _ hT, hT⟩

/-- An update at the parent of one control leaves the parent of another
control as it is, when neither control lies below the parent of the other. -/
theorem parentOf?_atParent_of_separate (g : Nat → Dom → Dom) (hg : KeepsShape g)
    (i j : Nat) (d : Dom) (hij : ¬ Below i j d) (hji : ¬ Below j i d) :
    parentOf? j (atParent g i d) = parentOf? j d :=
  (frame_aux g hg d).1 i j (fun a c h hr => hij ⟨a, c, h, hr.1, hr.2⟩)
    (fun b c h hr => hji ⟨b, c, h, hr.1, hr.2⟩)

end Dom

namespace Dom

theorem length_shape (d : Dom) : d.shape.controls.length = d.controls.length := by
  induction d with
  | nil => rfl
  | control field next ih => simp [shape, controls, ih]
  | message text next ih => simp [shape, controls, ih]
  | element children next ihc ihn => simp [shape, controls, ihc, ihn]

theorem isChild_shape (j : Nat) (d : Dom) : d.shape.isChild j = d.isChild j := by
  induction d generalizing j with
  | nil => rfl
  | control field next ih => cases j <;> simp [shape, isChild, ih]
  | message text next ih => simp [shape, isChild, ih]
  | element children next ihc ihn => simp [shape, isChild, length_shape, ihn]

theorem findParent_shape (k : Nat) (d : Dom) :
    (findParent k d.shape).map (fun p => (p.1, p.2.controls.length))
      = (findParent k d).map (fun p => (p.1, p.2.controls.length)) := by
  induction d generalizing k with
  | nil => rfl
  | control field next ih =>
    cases k with
    | zero => simp [shape, findParent]
    | succ n =>
      have := congrArg (Option.map fun p : Nat × Nat => (p.1 + 1, p.2)) (ih n)
      simpa [shape, findParent, Option.map_map, Function.comp] using this
  | message text next ih => simpa [shape, findParent] using ih k
  | element children next ihc ihn =>
    simp only [shape, findParent, length_shape, isChild_shape]
    split
    · split
      · simp [length_shape]
      · exact ihc k
    · have := congrArg (Option.map fun p : Nat × Nat => (p.1 + children.controls.length, p.2))
        (ihn (k - children.controls.length))
      simpa [Option.map_map, Function.comp] using this

theorem span?_shape (k : Nat) (d : Dom) : span? k d.shape = span? k d := by
  unfold span? parentOf?
  rw [isChild_shape]
  split
  · simp [length_shape]
  · exact findParent_shape k d

theorem span?_congr {d₁ d₂ : Dom} (h : d₁.shape = d₂.shape) (k : Nat) :
    span? k d₁ = span? k d₂ := by
  rw [← span?_shape k d₁, ← span?_shape k d₂, h]

theorem below_iff_span (i j : Nat) (d : Dom) :
    Below i j d ↔ ∃ a n, span? i d = some (a, n) ∧ a ≤ j ∧ j < a + n := by
  unfold Below span?
  constructor
  · rintro ⟨a, c, h, h1, h2⟩
    exact ⟨a, c.controls.length, by simp [h], h1, h2⟩
  · rintro ⟨a, n, h, h1, h2⟩
    cases hp : parentOf? i d with
    | none => simp [hp] at h
    | some p =>
      simp only [hp, Option.map_some', Option.some.injEq, Prod.mk.injEq] at h
      obtain ⟨rfl, rfl⟩ := h
      exact ⟨p.1, p.2, rfl, h1, h2⟩

theorem below_congr {d₁ d₂ : Dom} (h : d₁.shape = d₂.shape) (i j : Nat) :
    Below i j d₁ ↔ Below i j d₂ := by
  rw [below_iff_span, below_iff_span, span?_congr h]

theorem keepsShape_of_sameShape (g : Nat → Dom → Dom) (hg : SameShape g) : KeepsShape g := by
  intro k c
  refine ⟨?_, fun j => ?_⟩
  · rw [← length_shape, hg, length_shape]
  · rw [← isChild_shape, hg, isChild_shape]

theorem shape_mapControl (f : Field → Field) (k : Nat) (d : Dom) :
    (mapControl f k d).shape = d.shape := by
  induction d generalizing k with
  | nil => simp [mapControl]
  | control field next ih =>
    cases k with
    | zero => simp [mapControl, shape]
    | succ n => simp [mapControl, shape, ih]
  | message text next ih => simp [mapControl, shape, ih]
  | element children next ihc ihn =>
    simp only [mapControl]
    split <;> simp [shape, ihc, ihn]

theorem shape_mapControls (f : Field → Field) (d : Dom) :
    (mapControls f d).shape = d.shape := by
  induction d with
  | nil => rfl
  | control field next ih => simp [mapControls, shape, ih]
  | message text next ih => simp [mapControls, shape, ih]
  | element children next ihc ihn => simp [mapControls, shape, ihc, ihn]

theorem removeFirstMessage_of_messages_nil (d : Dom) (h : d.messages = []) :
    d.removeFirstMessage = d := by
  induction d with
  | nil => rfl
  | control field next ih =>
    simp only [messages] at h
    simp [removeFirstMessage, ih h]
  | message text next ih => simp [messages] at h
  | element children next ihc ihn =>
    simp only [messages, List.append_eq_nil] at h
    simp [removeFirstMessage, h.1, ihn h.2]

theorem shape_removeFirstMessage (d : Dom) : d.removeFirstMessage.shape = d.shape := by
  induction d with
  | nil => rfl
  | control field next ih => simp [removeFirstMessage, shape, ih]
  | message text next ih => simp [removeFirstMessage, shape]
  | element children next ihc ihn =>
    simp only [removeFirstMessage]
    split <;> simp [shape, ihc, ihn]

theorem shape_appendMessage (text : String) (d : Dom) :
    (d.appendMessage text).shape = d.shape := by
  induction d with
  | nil => rfl
  | control field next ih => simp [appendMessage, shape, ih]
  | message other next ih => simp [appendMessage, shape, ih]
  | element children next ihc ihn => simp [appendMessage, shape, ihn]

theorem shape_descend (g : Nat → Dom → Dom) (hg : SameShape g) (k : Nat) (d : Dom) :
    (descend g k d).shape = d.shape := by
  induction d generalizing k with
  | nil => simp [descend]
  | control field next ih =>
    cases k with
    | zero => simp [descend]
    | succ n => simp [descend, shape, ih]
  | message text next ih => simp [descend, shape, ih]
  | element children next ihc ihn =>
    simp only [descend]
    split
    · split
      · simp [shape, hg k children]
      · simp [shape, ihc]
    · simp [shape, ihn]

theorem shape_atParent (g : Nat → Dom → Dom) (hg : SameShape g) (k : Nat) (d : Dom) :
    (atParent g k d).shape = d.shape := by
  unfold atParent
  split
  · exact hg k d
  · exact shape_descend g hg k d

end Dom

namespace Dom

theorem isChild_or_findParent (k : Nat) (d : Dom) (h : k < d.controls.length) :
    d.isChild k = true ∨ (findParent k d).isSome = true := by
  induction d generalizing k with
  | nil => simp [controls] at h
  | control field next ih =>
    cases k with
    | zero => left; rfl
    | succ n =>
      simp only [controls, List.length_cons, Nat.add_lt_add_iff_right] at h
      rcases ih n h with h1 | hp
      · left; simpa [isChild] using h1
      · right; simpa [findParent] using hp
  | message text next ih =>
    simp only [controls] at h
    rcases ih k h with h1 | hp
    · left; simpa [isChild] using h1
    · right; simpa [findParent] using hp
  | element children next ihc ihn =>
    simp only [controls, List.length_append] at h
    by_cases hk : k < children.controls.length
    · right
      by_cases hc : children.isChild k = true
      · simp [findParent, hk, hc]
      · rcases ihc k hk with h1 | hp
        · exact absurd h1 hc
        · simpa [findParent, hk, hc] using hp
    · rcases ihn (k - children.controls.length) (by omega) with h1 | hp
      · left; simpa [isChild, hk] using h1
      · right; simpa [findParent, hk] using hp

/-- Every control has a parent. -/
theorem parentOf?_of_lt (k : Nat) (d : Dom) (h : k < d.controls.length) :
    (parentOf? k d).isSome = true := by
  unfold parentOf?
  by_cases hc : d.isChild k = true
  · simp [hc]
  · rcases isChild_or_findParent k d h with h1 | hp
    · exact absurd h1 hc
    · simpa [hc] using hp

end Dom

/-! ## Theorems: form validation -/

theorem evaluateRules_restyle (f : Field) (c : Bool) (b : String) :
    evaluateRules { f with errorClass := c, borderColor := b } = evaluateRules f := rfl

namespace Dom

theorem atParent_descend (g₁ g₂ : Nat → Dom → Dom) (hg : KeepsShape g₁) (k : Nat) (d : Dom) :
    descend g₂ k (descend g₁ k d) = descend (fun k c => g₂ k (g₁ k c)) k d := by
  induction d generalizing k with
  | nil => simp [descend]
  | control field next ih =>
    cases k with
    | zero => simp [descend]
    | succ n => simp [descend, ih]
  | message text next ih => simp [descend, ih]
  | element children next ihc ihn =>
    by_cases hk : k < children.controls.length
    · by_cases hc : children.isChild k = true
      · simp [descend, hk, hc, (hg k children).1, (hg k children).2]
      · simp [descend, hk, hc, length_descend g₁ hg, isChild_descend g₁ hg, ihc]
    · simp [descend, hk, ihn]

/-- Two updates at the parent of the same control are one update. -/
theorem atParent_atParent (g₁ g₂ : Nat → Dom → Dom) (hg : KeepsShape g₁) (k : Nat) (d : Dom) :
    atParent g₂ k (atParent g₁ k d) = atParent (fun k c => g₂ k (g₁ k c)) k d := by
  by_cases h : d.isChild k = true
  · simp [atParent, h, (hg k d).2]
  · have h' : d.isChild k = false := by simpa using h
    simp only [atParent, h', Bool.false_eq_true, if_false, isChild_descend g₁ hg]
    exact atParent_descend g₁ g₂ hg k d

theorem sameShape_clearError : SameShape clearError := by
  intro k c
  simp only [clearError, shape_removeFirstMessage, shape_mapControl]

theorem sameShape_showError (message : String) : SameShape (showError message) := by
  intro k c
  simp only [showError, shape_appendMessage, shape_removeFirstMessage, shape_mapControl]

theorem sameShape_validated (field : Field) : SameShape (validated field) := by
  intro k c
  unfold validated
  split
  · exact sameShape_clearError k c
  · rw [sameShape_showError, sameShape_clearError]

theorem controls_validated (field : Field) (k : Nat) (c : Dom) :
    (validated field k c).controls = c.controls.modify (restyle field) k := by
  unfold validated
  cases hv : (evaluateRules field).1
  · simp only [Bool.false_eq_true, if_false, showError, clearError, controls_appendMessage,
      controls_removeFirstMessage, controls_mapControl, modify_modify_same]
    apply modify_congr_at
    intro a _
    simp [restyle, hv]
  · simp only [if_true, clearError, controls_removeFirstMessage, controls_mapControl]
    apply modify_congr_at
    intro a _
    simp [restyle, hv]

theorem messages_validated (field : Field) (k : Nat) (c : Dom) :
    (validated field k c).messages =
      if (evaluateRules field).1 then c.messages.tail
      else c.messages.tail.tail ++ [(evaluateRules field).2] := by
  unfold validated
  cases hv : (evaluateRules field).1
  · simp only [Bool.false_eq_true, if_false, showError, clearError, messages_appendMessage,
      messages_removeFirstMessage, messages_mapControl]
  · simp only [if_true, clearError, messages_removeFirstMessage, messages_mapControl]

end Dom

/-- What `validateField` does to the form: the children of the parent of the
control change into `Dom.validated`, nothing else. -/
theorem validateField_form (form : Form) (ref : FieldRef) :
    (validateField form ref).1 =
      match form.field? ref with
      | none => form
      | some field => { form with content := form.content.atParent (Dom.validated field) ref } := by
  unfold validateField
  cases hf : form.field? ref with
  | none => rfl
  | some field =>
    simp only
    cases hE : evaluateRules field with
    | mk v m =>
      have hval : Dom.validated field = if v then Dom.clearError
          else fun k c => (c.clearError k).showError m k := by
        funext k c
        simp only [Dom.validated, hE]
        cases v <;> rfl
      cases v with
      | true => simp [clearFieldError, hval]
      | false =>
        simp only [clearFieldError, showFieldError, Bool.not_false, if_true, hval,
          Bool.false_eq_true, if_false]
        rw [Dom.atParent_atParent _ _ (Dom.keepsShape_of_sameShape _ Dom.sameShape_clearError)]

/-- What `validateField` returns. -/
theorem validateField_result (form : Form) (ref : FieldRef) :
    (validateField form ref).2 = fieldValid form ref := by
  unfold validateField fieldValid
  cases hf : form.field? ref with
  | none => rfl
  | some field =>
    simp only
    cases hE : evaluateRules field with
    | mk v m => cases v <;> rfl

theorem validateField_of_field (form : Form) (ref : FieldRef) (field : Field)
    (hfield : form.field? ref = some field) :
    (validateField form ref).2 = (evaluateRules field).1 := by
  rw [validateField_result]
  unfold fieldValid
  rw [hfield]

theorem validateField_submitButton (form : Form) (ref : FieldRef) :
    (validateField form ref).1.submitButton = form.submitButton := by
  rw [validateField_form]
  split <;> rfl

theorem validateField_shape (form : Form) (ref : FieldRef) :
    (validateField form ref).1.content.shape = form.content.shape := by
  rw [validateField_form]
  split
  · rfl
  · exact Dom.shape_atParent _ (Dom.sameShape_validated _) _ _

theorem validateField_controls (form : Form) (ref : FieldRef) :
    (validateField form ref).1.content.controls =
      match form.field? ref with
      | none => form.content.controls
      | some field => form.content.controls.modify (restyle field) ref := by
  rw [validateField_form]
  split
  · rename_i h; simp [h]
  · rename_i field h
    simp only [h]
    exact Dom.controls_atParent _ _ (Dom.controls_validated field) _ _

/-- Validating one control changes the `error` class and the border colour
only: whatever does not depend on them is the same for every control. -/
theorem validateField_field?_map {β : Type} (p : Field → β)
    (hp : ∀ f c b, p { f with errorClass := c, borderColor := b } = p f)
    (form : Form) (ref' ref : FieldRef) :
    ((validateField form ref').1.field? ref).map p = (form.field? ref).map p := by
  unfold Form.field?
  rw [validateField_controls]
  split
  · rfl
  · simp only [List.getElem?_modify]
    split
    · cases form.content.controls[ref]? <;> simp [restyle, hp]
    · cases form.content.controls[ref]? <;> rfl

theorem validateField_field? (form : Form) (ref' ref : FieldRef) :
    ((validateField form ref').1.field? ref).map evaluateRules
      = (form.field? ref).map evaluateRules :=
  validateField_field?_map evaluateRules (fun _ _ _ => rfl) form ref' ref

/-- The parent of a control after `validateField` ran on that control. -/
theorem validateField_parentOf? (form : Form) (ref : FieldRef) (field : Field)
    (hfield : form.field? ref = some field) :
    (validateField form ref).1.content.parentOf? ref =
      (form.content.parentOf? ref).map fun p => (p.1, Dom.validated field (ref - p.1) p.2) := by
  rw [validateField_form]
  simp only [hfield]
  exact Dom.parentOf?_atParent _
    (Dom.keepsShape_of_sameShape _ (Dom.sameShape_validated field)) _ _

/-- The parent of a control after `validateField` ran on another control,
when neither lies below the parent of the other. -/
theorem validateField_parentOf?_other (form : Form) (i j : FieldRef)
    (hij : ¬ Dom.Below i j form.content) (hji : ¬ Dom.Below j i form.content) :
    (validateField form i).1.content.parentOf? j = form.content.parentOf? j := by
  rw [validateField_form]
  split
  · rfl
  · exact Dom.parentOf?_atParent_of_separate _
      (Dom.keepsShape_of_sameShape _ (Dom.sameShape_validated _)) i j _ hij hji

theorem fieldValid_eq (form : Form) (ref : FieldRef) :
    fieldValid form ref = (((form.field? ref).map evaluateRules).map (·.1)).getD true := by
  unfold fieldValid
  cases form.field? ref <;> rfl

theorem fieldValid_validateField (form : Form) (ref' ref : FieldRef) :
    fieldValid (validateField form ref').1 ref = fieldValid form ref := by
  rw [fieldValid_eq, fieldValid_eq, validateField_field?]

theorem validateLoop_cons (acc : Form × Bool) (ref : FieldRef) (rest : List FieldRef) :
    validateLoop acc (ref :: rest) =
      validateLoop ((validateField acc.1 ref).1, (validateField acc.1 ref).2 && acc.2) rest := by
  unfold validateLoop
  rw [List.foldl_cons]
  congr 1
  cases h : validateField acc.1 ref with
  | mk f ok => cases ok <;> simp

theorem validateLoop_append (acc : Form × Bool) (refs : List FieldRef) (ref : FieldRef) :
    (validateLoop acc (refs ++ [ref])).1 = (validateField (validateLoop acc refs).1 ref).1 := by
  unfold validateLoop
  rw [List.foldl_append]
  simp only [List.foldl_cons, List.foldl_nil]

theorem validateLoop_result (acc : Form × Bool) (controls : List FieldRef) :
    (validateLoop acc controls).2 = (acc.2 && controls.all (fieldValid acc.1)) := by
  induction controls generalizing acc with
  | nil => simp [validateLoop]
  | cons ref rest ih =>
    rw [validateLoop_cons, ih]
    simp only [validateField_result, List.all_cons]
    have : List.all rest (fieldValid (validateField acc.1 ref).1)
        = List.all rest (fieldValid acc.1) := by
      congr 1
      funext x
      exact fieldValid_validateField acc.1 ref x
    rw [this]
    cases fieldValid acc.1 ref <;> cases acc.2 <;> simp

theorem validateLoop_submitButton (acc : Form × Bool) (controls : List FieldRef) :
    (validateLoop acc controls).1.submitButton = acc.1.submitButton := by
  induction controls generalizing acc with
  | nil => rfl
  | cons ref rest ih =>
    rw [validateLoop_cons, ih]
    exact validateField_submitButton _ _

theorem validateLoop_shape (acc : Form × Bool) (controls : List FieldRef) :
    (validateLoop acc controls).1.content.shape = acc.1.content.shape := by
  induction controls generalizing acc with
  | nil => rfl
  | cons ref rest ih =>
    rw [validateLoop_cons, ih]
    exact validateField_shape _ _

theorem validateLoop_field?_map {β : Type} (p : Field → β)
    (hp : ∀ f c b, p { f with errorClass := c, borderColor := b } = p f)
    (acc : Form × Bool) (controls : List FieldRef) (ref : FieldRef) :
    ((validateLoop acc controls).1.field? ref).map p = (acc.1.field? ref).map p := by
  induction controls generalizing acc with
  | nil => rfl
  | cons r rest ih =>
    rw [validateLoop_cons, ih]
    exact validateField_field?_map p hp _ _ _

theorem controlRefs_ge (i : Nat) (fs : List Field) :
    ∀ r : Nat, r ∈ controlRefs i fs → i ≤ r := by
  induction fs generalizing i with
  | nil => simp [controlRefs]
  | cons f fs ih =>
    intro r hr
    simp only [controlRefs] at hr
    split at hr
    · rcases List.mem_cons.mp hr with h | h
      · omega
      · have := ih (i + 1) r h; omega
    · have := ih (i + 1) r hr; omega

theorem controlRefs_nodup (i : Nat) (fs : List Field) : (controlRefs i fs).Nodup := by
  induction fs generalizing i with
  | nil => simp [controlRefs]
  | cons f fs ih =>
    simp only [controlRefs]
    split
    · rw [List.nodup_cons]
      refine ⟨fun h => ?_, ih (i + 1)⟩
      have := controlRefs_ge (i + 1) fs i h
      omega
    · exact ih (i + 1)

theorem mem_controlRefs (i : Nat) (fs : List Field) (r : Nat) :
    r ∈ controlRefs i fs ↔ i ≤ r ∧ ∃ f, fs[r - i]? = some f ∧ isRequiredControl f = true := by
  induction fs generalizing i with
  | nil => simp [controlRefs]
  | cons f fs ih =>
    have hstep : (i ≤ r ∧ ∃ x, (f :: fs)[r - i]? = some x ∧ isRequiredControl x = true) ↔
        ((r = i ∧ isRequiredControl f = true) ∨
          (i + 1 ≤ r ∧ ∃ x, fs[r - (i + 1)]? = some x ∧ isRequiredControl x = true)) := by
      constructor
      · rintro ⟨h1, x, hx, hp⟩
        by_cases hk : r = i
        · left
          rw [hk, Nat.sub_self] at hx
          simp only [List.getElem?_cons_zero, Option.some.injEq] at hx
          exact ⟨hk, hx ▸ hp⟩
        · right
          have : r - i = (r - (i + 1)) + 1 := by omega
          rw [this, List.getElem?_cons_succ] at hx
          exact ⟨by omega, x, hx, hp⟩
      · rintro (⟨rfl, hp⟩ | ⟨h1, x, hx, hp⟩)
        · exact ⟨le_refl _, f, by simp, hp⟩
        · have : r - i = (r - (i + 1)) + 1 := by omega
          exact ⟨by omega, x, by rw [this, List.getElem?_cons_succ]; exact hx, hp⟩
    rw [hstep]
    simp only [controlRefs]
    split
    · rw [List.mem_cons, ih]
      simp [*]
    · rw [ih]
      simp [*]

theorem mem_requiredControls (form : Form) (ref : FieldRef) :
    ref ∈ requiredControls form ↔
      ∃ f, form.field? ref = some f ∧ isRequiredControl f = true := by
  unfold requiredControls Form.field?
  rw [mem_controlRefs]
  simp

theorem requiredControls_nodup (form : Form) : (requiredControls form).Nodup :=
  controlRefs_nodup 0 _

theorem two_le_filter_length {α : Type} (p : α → Bool) (l : List α) (x y : Nat) (u v : α)
    (hx : l[x]? = some u) (hy : l[y]? = some v) (hxy : x ≠ y) (hu : p u = true)
    (hv : p v = true) : 2 ≤ (l.filter p).length := by
  induction l generalizing x y with
  | nil => simp at hx
  | cons a as ih =>
    have hmem : ∀ (n : Nat) (w : α), as[n]? = some w → p w = true →
        1 ≤ (as.filter p).length := by
      intro n w hn hw
      apply List.length_pos_of_mem
      exact List.mem_filter.mpr ⟨List.getElem?_mem hn, hw⟩
    cases x with
    | zero =>
      cases y with
      | zero => exact absurd rfl hxy
      | succ y' =>
        simp only [List.getElem?_cons_zero, Option.some.injEq] at hx
        simp only [List.getElem?_cons_succ] at hy
        have := hmem y' v hy hv
        simp only [List.filter_cons, hx, hu, if_true, List.length_cons]
        omega
    | succ x' =>
      cases y with
      | zero =>
        simp only [List.getElem?_cons_zero, Option.some.injEq] at hy
        simp only [List.getElem?_cons_succ] at hx
        have := hmem x' u hx hu
        simp only [List.filter_cons, hy, hv, if_true, List.length_cons]
        omega
      | succ y' =>
        simp only [List.getElem?_cons_succ] at hx hy
        have := ih x' y' hx hy (by omega)
        have hle : (as.filter p).length ≤ ((a :: as).filter p).length := by
          simp only [List.filter_cons]
          split <;> simp
        omega

/-- With separate parents, no required control lies below the parent of
another one. -/
theorem not_below_of_separate (form : Form) (hsep : SeparateParents form) (i j : Nat)
    (hi : i ∈ requiredControls form) (hj : j ∈ requiredControls form) (hij : i ≠ j) :
    ¬ Dom.Below i j form.content := by
  rintro ⟨a, c, hp, h1, h2⟩
  have hs := hsep i hi
  simp only [requiredBelowParent, hp] at hs
  obtain ⟨fi, hfi, hri⟩ := (mem_requiredControls form i).mp hi
  obtain ⟨fj, hfj, hrj⟩ := (mem_requiredControls form j).mp hj
  obtain ⟨ha, _, _, hspec⟩ := Dom.parentOf?_spec i _ a c hp
  obtain ⟨hlt, hci⟩ := Dom.parentOf?_control i _ a c hp
  have hcj : c.controls[j - a]? = form.content.controls[j]? := by
    rw [hspec (j - a) (by omega)]
    congr 1
    omega
  unfold Form.field? at hfi hfj
  rw [hfi] at hci
  rw [hfj] at hcj
  have := two_le_filter_length isRequiredControl c.controls (i - a) (j - a) fi fj hci hcj
    (by omega) hri hrj
  omega

theorem validated_congr (f₁ f₂ : Field) (h : evaluateRules f₁ = evaluateRules f₂) :
    Dom.validated f₁ = Dom.validated f₂ := by
  funext k c
  simp only [Dom.validated, h]

theorem shownAt?_congr (form form' : Form) (ref : FieldRef)
    (h : form.content.parentOf? ref = form'.content.parentOf? ref) :
    form.shownAt? ref = form'.shownAt? ref := by
  unfold Form.shownAt?
  rw [h]

theorem inErrorState_congr (form form' : Form) (ref : FieldRef)
    (h₁ : form.content.parentOf? ref = form'.content.parentOf? ref)
    (h₂ : (form.field? ref).map evaluateRules = (form'.field? ref).map evaluateRules) :
    InErrorState form ref ↔ InErrorState form' ref := by
  unfold InErrorState ShowsError
  rw [shownAt?_congr form form' ref h₁]
  cases hf : form.field? ref with
  | none =>
    cases hf' : form'.field? ref with
    | none => simp
    | some f' => rw [hf, hf'] at h₂; cases h₂
  | some f =>
    cases hf' : form'.field? ref with
    | none => rw [hf, hf'] at h₂; cases h₂
    | some f' =>
      rw [hf, hf'] at h₂
      simp only [Option.map_some', Option.some.injEq] at h₂
      simp only [Option.some.injEq, exists_eq_left', h₂]

/-- What is shown at a control right after `validateField` ran on it: the
control restyled by the outcome, and the messages below its parent with the
first one removed, or the first two removed and the new one added. -/
theorem validateField_shownAt? (form : Form) (ref : FieldRef) (field : Field)
    (messages : List String) (h : form.shownAt? ref = some (field, messages)) :
    form.field? ref = some field ∧
    (validateField form ref).1.shownAt? ref =
      some (restyle field field,
        if (evaluateRules field).1 then messages.tail
        else messages.tail.tail ++ [(evaluateRules field).2]) := by
  unfold Form.shownAt? at h
  cases hp : form.content.parentOf? ref with
  | none => rw [hp] at h; cases h
  | some p =>
    obtain ⟨a, c⟩ := p
    rw [hp] at h
    simp only [Option.map_eq_some', Prod.mk.injEq] at h
    obtain ⟨f, hf, rfl, rfl⟩ := h
    obtain ⟨hlt, hc⟩ := Dom.parentOf?_control ref _ a c hp
    have hfield : form.field? ref = some f := by
      unfold Form.field?
      rw [← hc]; exact hf
    refine ⟨hfield, ?_⟩
    unfold Form.shownAt?
    rw [validateField_parentOf? form ref f hfield, hp]
    simp only [Option.map_some', Dom.controls_validated, Dom.messages_validated,
      List.getElem?_modify, if_true, hf]
    rfl

/-- Right after `validateField`, the control is in the error state exactly
when the call returned false. -/
theorem validateField_inErrorState (form : Form) (ref : FieldRef) :
    InErrorState (validateField form ref).1 ref ↔ (validateField form ref).2 = false := by
  cases hs : form.shownAt? ref with
  | none =>
    -- no such control: nothing is validated
    have hnone : form.field? ref = none := by
      unfold Form.shownAt? at hs
      unfold Form.field?
      cases hp : form.content.parentOf? ref with
      | none =>
        apply List.getElem?_eq_none
        by_contra hge
        have hsome := Dom.parentOf?_of_lt ref form.content (Nat.lt_of_not_le hge)
        rw [hp] at hsome
        cases hsome
      | some p =>
        obtain ⟨a, c⟩ := p
        rw [hp] at hs
        obtain ⟨hlt, hc⟩ := Dom.parentOf?_control ref _ a c hp
        rw [← hc]
        simpa using hs
    have h1 : (validateField form ref).1 = form := by
      rw [validateField_form, hnone]
    have h2 : (validateField form ref).2 = true := by
      rw [validateField_result]; unfold fieldValid; rw [hnone]
    rw [h1, h2]
    unfold InErrorState
    simp [hnone]
  | some p =>
    obtain ⟨field, messages⟩ := p
    obtain ⟨hfield, hshown⟩ := validateField_shownAt? form ref field messages hs
    rw [validateField_of_field form ref field hfield]
    have hf' := validateField_field? form ref ref
    rw [hfield] at hf'
    unfold InErrorState ShowsError
    rw [hshown]
    cases hf2 : (validateField form ref).1.field? ref with
    | none => rw [hf2] at hf'; cases hf'
    | some f2 =>
      rw [hf2] at hf'
      simp only [Option.map_some', Option.some.injEq] at hf'
      simp only [Option.some.injEq, exists_eq_left', hf', Prod.mk.injEq]
      constructor
      · rintro ⟨f, ms, ⟨rfl, rfl⟩, hc, _⟩
        simpa [restyle] using hc
      · intro hv
        refine ⟨_, _, ⟨rfl, rfl⟩, by simp [restyle, hv], ?_⟩
        simp [hv]

/-- The parent of a required control after the loop of `validateForm` over
any controls, each visited once, of a form with separate parents: as
`validateField` on the control alone leaves it when the control was visited,
untouched otherwise. -/
theorem validateLoop_parentOf? (form : Form) (hsep : SeparateParents form) (b : Bool)
    (refs : List FieldRef) (hnodup : refs.Nodup)
    (hrefs : ∀ r ∈ refs, r ∈ requiredControls form)
    (j : FieldRef) (hj : j ∈ requiredControls form) :
    (validateLoop (form, b) refs).1.content.parentOf? j =
      if j ∈ refs then (validateField form j).1.content.parentOf? j
      else form.content.parentOf? j := by
  induction refs using List.reverseRecOn with
  | nil => simp [validateLoop]
  | append_singleton refs i ih =>
    have hnodup' : refs.Nodup := (List.nodup_append.mp hnodup).1
    have hi : i ∉ refs := by
      intro hmem
      exact (List.nodup_append.mp hnodup).2.2 hmem (List.mem_singleton.mpr rfl)
    have hrefs' : ∀ r ∈ refs, r ∈ requiredControls form :=
      fun r hr => hrefs r (List.mem_append.mpr (Or.inl hr))
    have hireq : i ∈ requiredControls form :=
      hrefs i (List.mem_append.mpr (Or.inr (List.mem_singleton.mpr rfl)))
    have ih := ih hnodup' hrefs'
    have hshape := validateLoop_shape (form, b) refs
    rw [validateLoop_append]
    by_cases hij : i = j
    · subst hij
      simp only [hi, if_false] at ih
      obtain ⟨f, hf, _⟩ := (mem_requiredControls form i).mp hireq
      have hf' := validateLoop_field?_map evaluateRules (fun _ _ _ => rfl) (form, b) refs i
      simp only [hf, Option.map_some'] at hf'
      cases hf2 : (validateLoop (form, b) refs).1.field? i with
      | none => rw [hf2] at hf'; cases hf'
      | some f2 =>
        rw [hf2] at hf'
        simp only [Option.map_some', Option.some.injEq] at hf'
        rw [validateField_parentOf? _ i f2 hf2, ih, validateField_parentOf? form i f hf,
          validated_congr f2 f hf']
        simp
    · have hji : j ≠ i := fun h => hij h.symm
      have h1 : ¬ Dom.Below i j (validateLoop (form, b) refs).1.content := by
        rw [Dom.below_congr hshape]
        exact not_below_of_separate form hsep i j hireq hj hij
      have h2 : ¬ Dom.Below j i (validateLoop (form, b) refs).1.content := by
        rw [Dom.below_congr hshape]
        exact not_below_of_separate form hsep j i hj hireq hji
      rw [validateField_parentOf?_other _ i j h1 h2, ih]
      simp [hji]

/-- C4, as amended. For every form, `validateForm` returns true exactly when
no required control is invalid, in whatever order the controls are visited.
On a form in which the parent element of each required control has no other
required control among its descendants, in whatever order the required
controls are visited, every required control and its parent are afterwards as
`validateField` on that control alone leaves them, so the control is in the
error state exactly when `validateField` on it alone returns false. -/
theorem validateForm_controls_independent (form : Form) :
    ((validateForm form).2 = true ↔
      ∀ ref ∈ requiredControls form, (validateField form ref).2 = true) ∧
    (∀ order : List FieldRef, order.Perm (requiredControls form) →
      (validateControls form order).2 = (validateForm form).2) ∧
    (SeparateParents form →
      ∀ order : List FieldRef, order.Perm (requiredControls form) →
        ∀ ref ∈ requiredControls form,
          (validateControls form order).1.content.parentOf? ref
            = (validateField form ref).1.content.parentOf? ref ∧
          (validateControls form order).1.shownAt? ref
            = (validateField form ref).1.shownAt? ref ∧
          (InErrorState (validateControls form order).1 ref ↔
            (validateField form ref).2 = false)) := by
  refine ⟨?_, ?_, ?_⟩
  · unfold validateForm validateControls
    rw [validateLoop_result]
    simp only [Bool.true_and, List.all_eq_true, validateField_result]
  · intro order hperm
    unfold validateForm validateControls
    rw [validateLoop_result, validateLoop_result]
    simp only [Bool.true_and]
    rw [Bool.eq_iff_iff]
    simp only [List.all_eq_true]
    constructor
    · intro h x hx; exact h x (hperm.mem_iff.mpr hx)
    · intro h x hx; exact h x (hperm.mem_iff.mp hx)
  · intro hsep order hperm ref href
    have hparent : (validateControls form order).1.content.parentOf? ref
        = (validateField form ref).1.content.parentOf? ref := by
      unfold validateControls
      rw [validateLoop_parentOf? form hsep true order
        (hperm.nodup_iff.mpr (requiredControls_nodup form))
        (fun r hr => hperm.mem_iff.mp hr) ref href]
      simp [hperm.mem_iff.mpr href]
    refine ⟨hparent, shownAt?_congr _ _ ref hparent, ?_⟩
    rw [← validateField_inErrorState form ref]
    apply inErrorState_congr _ _ ref hparent
    unfold validateControls
    rw [validateLoop_field?_map evaluateRules (fun _ _ _ => rfl), validateField_field?]

theorem validateForm_controls_independent_witness :
    SeparateParents twoFieldForm ∧
    (validateForm twoFieldForm).2 = false ∧
    InErrorState (validateForm twoFieldForm).1 0 ∧
    ¬ InErrorState (validateForm twoFieldForm).1 1 ∧
    (validateControls twoFieldForm [1, 0]).1.shownAt? 0
      = (validateField twoFieldForm 0).1.shownAt? 0 :=
  have h := validateForm_controls_independent twoFieldForm
  have hsep : SeparateParents twoFieldForm := by decide
  ⟨hsep,
   Bool.eq_false_iff.mpr fun hv => absurd (h.1.mp hv 0 (by decide)) (by decide),
   (h.2.2 hsep (requiredControls twoFieldForm) (List.Perm.refl _) 0 (by decide)).2.2.mpr
    (by decide),
   fun he => absurd
    ((h.2.2 hsep (requiredControls twoFieldForm) (List.Perm.refl _) 1 (by decide)).2.2.mp he)
    (by decide),
   (h.2.2 hsep [1, 0] (by decide) 0 (by decide)).2.1⟩

/-- C4, as stated, fails when a required control lies below the parent of
another one. Two required controls that share a parent: the name control is
invalid on its own, `validateForm` gives it the `error` class, and then
validating the valid e-mail control removes the first `.error-message` below
the common parent, which is the name control's. The same happens when the
invalid control has a wrapper of its own inside the parent of the valid
one. -/
theorem validateForm_shared_parent_drops_error :
    (0 ∈ requiredControls sharedParentForm ∧
      (validateField sharedParentForm 0).2 = false ∧
      ¬ InErrorState (validateForm sharedParentForm).1 0 ∧
      (validateForm sharedParentForm).1.content.messages = []) ∧
    (0 ∈ requiredControls nestedParentForm ∧
      (validateField nestedParentForm 0).2 = false ∧
      ¬ InErrorState (validateForm nestedParentForm).1 0 ∧
      (validateForm nestedParentForm).1.content.messages = []) := by
  decide

/-- The rules of `validateField` never fail together, so the message the
last failing `if` statement leaves is the message of the first failing
rule. -/
theorem evaluateRules_eq_firstFailingRule (field : Field) :
    evaluateRules field =
      match firstFailingRule field with
      | none => (true, "")
      | some rule => (false, rule.errorMessage field) := by
  unfold evaluateRules firstFailingRule
  simp only [List.find?, Rule.fails, Rule.errorMessage]
  generalize field.required = req
  generalize decide (jsTrim field.value = "") = isEmpty
  generalize emailRegex.test (jsTrim field.value) = ok
  generalize decide (jsLength (jsTrim field.value) < 2) = short2
  generalize decide (jsLength (jsTrim field.value) < 10) = short10
  generalize getFieldLabel field.name = label
  rcases hname : field.name with _ | n
  · cases req <;> cases isEmpty <;> simp
  · by_cases he : n = "email"
    · subst he
      cases req <;> cases isEmpty <;> cases ok <;> simp
    · by_cases hn : n = "name"
      · subst hn
        cases req <;> cases isEmpty <;> cases short2 <;> simp
      · by_cases hm : n = "message"
        · subst hm
          cases req <;> cases isEmpty <;> cases short10 <;> simp
        · cases req <;> cases isEmpty <;> simp [he, hn, hm]

/-- C10, as amended. Whatever `error` class and border colour the field had
before, provided at most one `.error-message` lies below its parent before
the call: after `validateField` at most one `.error-message` is below the
parent; the call returns false exactly when some rule fails, and then the
field has the `error` class and the message shown is the message of the
first failing rule in the order required, email, name, message; when no rule
fails, the field has neither the class nor the border colour and no message
is left. -/
theorem validateField_first_failing_rule (form : Form) (ref : FieldRef) (field : Field)
    (messages : List String) (hshown : form.shownAt? ref = some (field, messages))
    (hm : messages.length ≤ 1) :
    ∃ field' messages', (validateField form ref).1.shownAt? ref = some (field', messages') ∧
      messages'.length ≤ 1 ∧
      ((validateField form ref).2 = false ↔ firstFailingRule field ≠ none) ∧
      (∀ rule, firstFailingRule field = some rule →
        field'.errorClass = true ∧ messages' = [rule.errorMessage field]) ∧
      (firstFailingRule field = none →
        field'.errorClass = false ∧ field'.borderColor = "" ∧ messages' = []) := by
  obtain ⟨hfield, hafter⟩ := validateField_shownAt? form ref field messages hshown
  have hev := evaluateRules_eq_firstFailingRule field
  have htail : messages.tail = [] := by
    match messages, hm with
    | [], _ => rfl
    | [_], _ => rfl
  refine ⟨_, _, hafter, ?_, ?_, ?_, ?_⟩
  · rw [htail]
    split <;> simp
  · rw [validateField_of_field form ref field hfield, hev]
    cases firstFailingRule field <;> simp
  · intro rule hr
    rw [hr] at hev
    simp [restyle, htail, hev]
  · intro hr
    rw [hr] at hev
    simp [restyle, htail, hev]

theorem validateField_first_failing_rule_witness :
    (staleErrorForm "a@b").shownAt? 0 = some
      ({ textField "email" "a@b" false with errorClass := true, borderColor := "#ef4444" },
        ["Please enter a valid email address."]) ∧
    ∃ field' messages',
      (validateField (staleErrorForm "a@b") 0).1.shownAt? 0 = some (field', messages') ∧
      messages'.length ≤ 1 ∧
      ((validateField (staleErrorForm "a@b") 0).2 = false ↔
        firstFailingRule ({ textField "email" "a@b" false with
          errorClass := true, borderColor := "#ef4444" }) ≠ none) ∧
      (∀ rule, firstFailingRule ({ textField "email" "a@b" false with
          errorClass := true, borderColor := "#ef4444" }) = some rule →
        field'.errorClass = true ∧
        messages' = [rule.errorMessage ({ textField "email" "a@b" false with
          errorClass := true, borderColor := "#ef4444" })]) ∧
      (firstFailingRule ({ textField "email" "a@b" false with
          errorClass := true, borderColor := "#ef4444" }) = none →
        field'.errorClass = false ∧ field'.borderColor = "" ∧ messages' = []) :=
  ⟨by decide,
   validateField_first_failing_rule (staleErrorForm "a@b") 0
    { textField "email" "a@b" false with errorClass := true, borderColor := "#ef4444" }
    ["Please enter a valid email address."] (by decide) (by decide)⟩

/-- C10, as stated, fails when more than one `.error-message` lies below the
parent of the field before the call, since `clearFieldError` and
`showFieldError` each remove the first one only: with two of them a valid
field keeps one, and with three an invalid field ends with two. -/
theorem validateField_keeps_stale_messages :
    ((validateField (staleMessagesForm (textField "email" "a@b.co" false) 2) 0).2 = true ∧
      (validateField (staleMessagesForm (textField "email" "a@b.co" false) 2) 0).1.shownAt? 0
        = some (textField "email" "a@b.co" false, ["Please enter a valid email address."])) ∧
    ((validateField (staleMessagesForm (textField "email" "a@b" false) 3) 0).2 = false ∧
      ((validateField (staleMessagesForm (textField "email" "a@b" false) 3) 0).1.shownAt?
        0).map (fun shown => shown.2.length) = some 2) := by
  decide

theorem trimChars_decompose (cs : List Char) :
    ∃ ws₁ ws₂, cs = ws₁ ++ trimChars cs ++ ws₂ ∧
      (∀ c ∈ ws₁, isWhiteSpace c = true) ∧ (∀ c ∈ ws₂, isWhiteSpace c = true) := by
  refine ⟨cs.takeWhile isWhiteSpace,
    ((cs.dropWhile isWhiteSpace).reverse.takeWhile isWhiteSpace).reverse, ?_, ?_, ?_⟩
  · unfold trimChars
    rw [List.append_assoc, ← List.reverse_append, List.takeWhile_append_dropWhile,
      List.reverse_reverse, List.takeWhile_append_dropWhile]
  · intro c hc
    exact List.mem_takeWhile_imp hc
  · intro c hc
    exact List.mem_takeWhile_imp (List.mem_reverse.mp hc)

theorem split_unique {α : Type} (x : α) (p₁ q₁ p₂ q₂ : List α)
    (h : p₁ ++ x :: q₁ = p₂ ++ x :: q₂) (hp : x ∉ p₁) (hq : x ∉ q₁) :
    p₁ = p₂ ∧ q₁ = q₂ := by
  rcases List.append_eq_append_iff.mp h with ⟨a, ha, hb⟩ | ⟨c, hc, hd⟩
  · cases a with
    | nil => simp at ha hb; exact ⟨ha.symm, hb⟩
    | cons y a' =>
      simp only [List.cons_append, List.cons.injEq] at hb
      exact absurd (by rw [hb.2]; simp) hq
  · cases c with
    | nil => simp at hc hd; exact ⟨hc, hd.symm⟩
    | cons y c' =>
      simp only [List.cons_append, List.cons.injEq] at hd
      exact absurd (by rw [hc, ← hd.1]; simp) hp

/-- A value without `@`, or with an `@` that no `.` follows, does not match
the e-mail pattern once trimmed. -/
theorem emailRegex_rejects (value : String)
    (h : '@' ∉ value.data ∨ AtWithoutDot value.data) :
    emailRegex.test (jsTrim value) = false := by
  rw [Bool.eq_false_iff]
  intro ht
  obtain ⟨a, b, c, habc, _, _, _, ha, hb, hc⟩ := (emailRegex_test_iff _).mp ht
  obtain ⟨ws₁, ws₂, hcs, hw₁, hw₂⟩ := trimChars_decompose value.data
  have hnotAt : ∀ l : List Char, (∀ x ∈ l, notSpaceNorAt x = true) → '@' ∉ l := by
    intro l hl hmem
    have := hl _ hmem
    simp [notSpaceNorAt] at this
  have hwsAt : ∀ l : List Char, (∀ x ∈ l, isWhiteSpace x = true) → '@' ∉ l := by
    intro l hl hmem
    have := hl _ hmem
    revert this
    decide
  have hdata : (jsTrim value).data = trimChars value.data := rfl
  rw [hdata] at habc
  have hval : value.data = (ws₁ ++ a) ++ '@' :: (b ++ '.' :: c ++ ws₂) := by
    rw [hcs, habc]
    simp
  rcases h with h | ⟨pre, post, hsplit, hdot⟩
  · apply h
    rw [hval]
    simp
  · rw [hval] at hsplit
    have hp : '@' ∉ ws₁ ++ a := by
      simp only [List.mem_append, not_or]
      exact ⟨hwsAt _ hw₁, hnotAt _ ha⟩
    have hq : '@' ∉ b ++ '.' :: c ++ ws₂ := by
      simp only [List.mem_append, List.mem_cons, not_or]
      exact ⟨⟨hnotAt _ hb, by decide, hnotAt _ hc⟩, hwsAt _ hw₂⟩
    obtain ⟨_, hpost⟩ := split_unique '@' _ _ _ _ hsplit hp hq
    apply hdot
    rw [← hpost]
    simp

/-- C3, as amended. For a field named `email` whose value contains no `@`,
or an `@` that no `.` follows: when the field is required, or its value is
not empty once trimmed, `validateField` returns false and puts the field in
the error state, with the message of the rule that failed. -/
theorem validateField_email_without_at_or_dot (form : Form) (ref : FieldRef) (field : Field)
    (hfield : form.field? ref = some field) (hname : field.name = some "email")
    (hvalue : '@' ∉ field.value.data ∨ AtWithoutDot field.value.data)
    (hneeded : field.required = true ∨ jsTrim field.value ≠ "") :
    (validateField form ref).2 = false ∧
    InErrorState (validateField form ref).1 ref ∧
    ShowsError (validateField form ref).1 ref
      (if jsTrim field.value = "" then "Email Address is required."
       else "Please enter a valid email address.") := by
  have hrej := emailRegex_rejects field.value hvalue
  have hev : evaluateRules field =
      (false, if jsTrim field.value = "" then "Email Address is required."
        else "Please enter a valid email address.") := by
    unfold evaluateRules
    simp only [hname, hrej]
    by_cases he : jsTrim field.value = ""
    · have hr : field.required = true := by
        rcases hneeded with h | h
        · exact h
        · exact absurd he h
      simp [he, hr, getFieldLabel]
    · simp [he]
  have hres : (validateField form ref).2 = false := by
    rw [validateField_result]
    unfold fieldValid
    rw [hfield]
    simp only [hev]
  have hstate := (validateField_inErrorState form ref).mpr hres
  refine ⟨hres, hstate, ?_⟩
  obtain ⟨f', hf', hshow⟩ := hstate
  have h1 := validateField_field? form ref ref
  rw [hf', hfield] at h1
  simp only [Option.map_some', Option.some.injEq] at h1
  rw [h1, hev] at hshow
  exact hshow

theorem validateField_email_without_at_or_dot_witness :
    (validateField (contactForm "Al" "john.example.com" "") 1).2 = false ∧
    InErrorState (validateField (contactForm "Al" "john.example.com" "") 1).1 1 ∧
    ShowsError (validateField (contactForm "Al" "john.example.com" "") 1).1 1
      (if jsTrim (textField "email" "john.example.com" true).value = ""
       then "Email Address is required." else "Please enter a valid email address.") :=
  validateField_email_without_at_or_dot (contactForm "Al" "john.example.com" "") 1
    (textField "email" "john.example.com" true) rfl rfl (Or.inl (by decide))
    (Or.inl rfl)

/-- C3, as stated, fails for an e-mail field that is not required and left
empty: the value contains no `@`, yet `validateField` returns true and the
field is not in the error state. -/
theorem validateField_optional_empty_email_is_valid :
    '@' ∉ (textField "email" "" false).value.data ∧
    (validateField (singleFieldForm (textField "email" "" false)) 0).2 = true ∧
    ¬ InErrorState (validateField (singleFieldForm (textField "email" "" false)) 0).1 0 := by
  decide

/-- A field that is not required and is empty once trimmed is valid, whatever
its name: the closing sentence of C3 as amended. -/
theorem validateField_optional_empty_valid (form : Form) (ref : FieldRef) (field : Field)
    (hfield : form.field? ref = some field) (hoptional : field.required = false)
    (hempty : jsTrim field.value = "") : (validateField form ref).2 = true := by
  rw [validateField_of_field form ref field hfield]
  unfold evaluateRules
  simp [hoptional, hempty]

/-- C7, as amended. For a field named `name` whose value is not empty once
trimmed, `validateField` returns true exactly when the trimmed value has at
least 2 UTF-16 code units. -/
theorem validateField_name_length (form : Form) (ref : FieldRef) (field : Field)
    (hfield : form.field? ref = some field) (hname : field.name = some "name")
    (hvalue : jsTrim field.value ≠ "") :
    (validateField form ref).2 = true ↔ 2 ≤ jsLength (jsTrim field.value) := by
  rw [validateField_of_field form ref field hfield]
  unfold evaluateRules
  simp only [hname, hvalue]
  by_cases h : jsLength (jsTrim field.value) < 2
  · simp [h]
  · simp [h]
    omega

theorem validateField_name_length_witness :
    ((validateField (singleFieldForm (textField "name" "Al" true)) 0).2 = true ↔
      2 ≤ jsLength (jsTrim (textField "name" "Al" true).value)) ∧
    (validateField (singleFieldForm (textField "name" "Al" true)) 0).2 = true ∧
    (validateField (singleFieldForm (textField "name" "A" true)) 0).2 = false :=
  ⟨validateField_name_length (singleFieldForm (textField "name" "Al" true)) 0
      (textField "name" "Al" true) rfl rfl (by decide),
   (validateField_name_length (singleFieldForm (textField "name" "Al" true)) 0
      (textField "name" "Al" true) rfl rfl (by decide)).mpr (by decide),
   Bool.eq_false_iff.mpr fun h =>
    absurd ((validateField_name_length (singleFieldForm (textField "name" "A" true)) 0
      (textField "name" "A" true) rfl rfl (by decide)).mp h) (by decide)⟩

/-- C7, as stated, fails on a value with white space around it: ` A` is not
empty and has length 2, yet `validateField` returns false, because the length
is taken after trimming. -/
theorem validateField_name_padded_is_invalid :
    (textField "name" " A" false).value ≠ "" ∧
    2 ≤ jsLength (textField "name" " A" false).value ∧
    (validateField (singleFieldForm (textField "name" " A" false)) 0).2 = false := by
  decide

/-- C8, as amended. For a field named `message` whose value is not empty
once trimmed, `validateField` returns true exactly when the trimmed value has
at least 10 UTF-16 code units. -/
theorem validateField_message_length (form : Form) (ref : FieldRef) (field : Field)
    (hfield : form.field? ref = some field) (hname : field.name = some "message")
    (hvalue : jsTrim field.value ≠ "") :
    (validateField form ref).2 = true ↔ 10 ≤ jsLength (jsTrim field.value) := by
  rw [validateField_of_field form ref field hfield]
  unfold evaluateRules
  simp only [hname, hvalue]
  by_cases h : jsLength (jsTrim field.value) < 10
  · simp [h]
  · simp [h]
    omega

theorem validateField_message_length_witness :
    (validateField (singleFieldForm (textField "message" "1234567890" true)) 0).2 = true ∧
    (validateField (singleFieldForm (textField "message" "123456789" true)) 0).2 = false :=
  ⟨(validateField_message_length (singleFieldForm (textField "message" "1234567890" true))
      0 (textField "message" "1234567890" true) rfl rfl (by decide)).mpr (by decide),
   Bool.eq_false_iff.mpr fun h =>
    absurd ((validateField_message_length
      (singleFieldForm (textField "message" "123456789" true)) 0
      (textField "message" "123456789" true) rfl rfl (by decide)).mp h) (by decide)⟩

/-- C8, as stated, fails on a value with white space around it: `123456789`
followed by a space is not empty and has length 10, yet `validateField`
returns false, because the length is taken after trimming. -/
theorem validateField_message_padded_is_invalid :
    (textField "message" "123456789 " false).value ≠ "" ∧
    10 ≤ jsLength (textField "message" "123456789 " false).value ∧
    (validateField (singleFieldForm (textField "message" "123456789 " false)) 0).2
      = false := by
  decide

/-! ## Theorems: notifications and form submission -/

theorem validateForm_field?_map {β : Type} (p : Field → β)
    (hp : ∀ f c b, p { f with errorClass := c, borderColor := b } = p f)
    (form : Form) (ref : FieldRef) :
    ((validateForm form).1.field? ref).map p = (form.field? ref).map p :=
  validateLoop_field?_map p hp (form, true) (requiredControls form) ref

theorem validateForm_submitButton (form : Form) :
    (validateForm form).1.submitButton = form.submitButton :=
  validateLoop_submitButton (form, true) (requiredControls form)

theorem reset_field? (form : Form) (ref : FieldRef) :
    form.reset.field? ref =
      (form.field? ref).map fun f => { f with value := f.defaultValue } := by
  unfold Form.reset Form.field?
  simp only [Dom.controls_mapControls, List.getElem?_map]

/-- What `handleFormSubmissionStart` does on a valid form with a submit
button. -/
theorem handleFormSubmissionStart_of_valid (ui : Ui) (button : SubmitButton)
    (hbutton : ui.form.submitButton = some button)
    (hvalid : (validateForm ui.form).2 = true) :
    handleFormSubmissionStart ui =
      .pending
        { ui with
          form := { (validateForm ui.form).1 with
            submitButton := some { disabled := true, textContent := "Sending..." } } }
        button.textContent := by
  have hb := validateForm_submitButton ui.form
  rw [hbutton] at hb
  unfold handleFormSubmissionStart
  cases hv : validateForm ui.form with
  | mk form ok =>
    rw [hv] at hvalid hb
    simp only at hvalid hb
    simp only [hvalid, hb, Bool.not_true, Bool.false_eq_true, if_false]

/-- What `handleFormSubmissionStart` does on an invalid form. -/
theorem handleFormSubmissionStart_of_invalid (ui : Ui)
    (hinvalid : (validateForm ui.form).2 = false) :
    handleFormSubmissionStart ui =
      .invalid (showNotification { ui with form := (validateForm ui.form).1 }
        "Please correct the errors in the form." "error") := by
  unfold handleFormSubmissionStart
  cases hv : validateForm ui.form with
  | mk form ok =>
    rw [hv] at hinvalid
    simp only at hinvalid
    simp only [hinvalid, Bool.not_false, if_true]

/-- C5, as amended. For every valid form that has a `button[type="submit"]`:
when the transport resolves, every control holds its default value (the
empty string where the markup gives none) and the one notification shown has
severity `success`; when it rejects, every control holds the value it had
before the call and the one notification shown has severity `error`. -/
theorem handleFormSubmission_outcomes (ui : Ui) (button : SubmitButton)
    (hbutton : ui.form.submitButton = some button)
    (hvalid : (validateForm ui.form).2 = true) :
    (∃ ui', handleFormSubmission ui true = .fulfilled ui' ∧
      (∀ ref, (ui'.form.field? ref).map (·.value)
        = (ui.form.field? ref).map (·.defaultValue)) ∧
      ∃ n, ui'.notifications = [n] ∧ n.type = "success") ∧
    (∃ ui', handleFormSubmission ui false = .fulfilled ui' ∧
      (∀ ref, (ui'.form.field? ref).map (·.value) = (ui.form.field? ref).map (·.value)) ∧
      ∃ n, ui'.notifications = [n] ∧ n.type = "error") := by
  have hstart := handleFormSubmissionStart_of_valid ui button hbutton hvalid
  constructor
  · refine ⟨_, by unfold handleFormSubmission; rw [hstart], ?_, ?_⟩
    · intro ref
      have h1 := validateForm_field?_map (·.defaultValue) (fun _ _ _ => rfl) ui.form ref
      rw [← h1]
      simp only [handleFormSubmissionSettle, if_true, showNotification]
      show (Form.field? (Form.reset _) ref).map _ = _
      rw [reset_field?]
      unfold Form.field?
      simp only [Option.map_map]
      rfl
    · exact ⟨_, rfl, rfl⟩
  · refine ⟨_, by unfold handleFormSubmission; rw [hstart], ?_, ?_⟩
    · intro ref
      have h1 := validateForm_field?_map (·.value) (fun _ _ _ => rfl) ui.form ref
      rw [← h1]
      rfl
    · exact ⟨_, rfl, rfl⟩

/-- When the transport rejects, the rest of `handleFormSubmission` changes
no control, whatever happened on the page while the transport was pending. -/
theorem handleFormSubmissionSettle_rejected_fields (ui : Ui) (originalText : String)
    (ref : FieldRef) :
    (handleFormSubmissionSettle ui originalText false).form.field? ref = ui.form.field? ref :=
  rfl

/-- When the transport resolves, the rest of `handleFormSubmission` gives
every control its default value. -/
theorem handleFormSubmissionSettle_resolved_fields (ui : Ui) (originalText : String)
    (ref : FieldRef) :
    (handleFormSubmissionSettle ui originalText true).form.field? ref =
      (ui.form.field? ref).map fun f => { f with value := f.defaultValue } := by
  rw [← reset_field?]
  rfl

theorem handleFormSubmission_outcomes_witness :
    (Ui.initial (contactForm "Al" "al@example.com" "Please call me back.")).form.submitButton
      = some { disabled := false, textContent := "Send Message" } ∧
    (validateForm
      (Ui.initial (contactForm "Al" "al@example.com" "Please call me back.")).form).2 = true ∧
    (∃ ui', handleFormSubmission
        (Ui.initial (contactForm "Al" "al@example.com" "Please call me back.")) true
        = .fulfilled ui' ∧
      (∀ ref, (ui'.form.field? ref).map (·.value)
        = ((Ui.initial (contactForm "Al" "al@example.com" "Please call me back.")).form.field?
            ref).map (·.defaultValue)) ∧
      ∃ n, ui'.notifications = [n] ∧ n.type = "success") ∧
    (∃ ui', handleFormSubmission
        (Ui.initial (contactForm "Al" "al@example.com" "Please call me back.")) false
        = .fulfilled ui' ∧
      (∀ ref, (ui'.form.field? ref).map (·.value)
        = ((Ui.initial (contactForm "Al" "al@example.com" "Please call me back.")).form.field?
            ref).map (·.value)) ∧
      ∃ n, ui'.notifications = [n] ∧ n.type = "error") :=
  ⟨rfl, by decide,
   handleFormSubmission_outcomes
    (Ui.initial (contactForm "Al" "al@example.com" "Please call me back."))
    { disabled := false, textContent := "Send Message" } rfl (by decide)⟩

/-- C5, as stated, fails in two ways. A control whose markup gives it a
default value is reset to that value, not to the empty string; and a valid
form without a `button[type="submit"]` ends in neither outcome: the call
throws before the transport is started and no notification is shown. -/
theorem handleFormSubmission_reset_restores_defaults :
    (validateForm preselectedForm).2 = true ∧
    (∃ ui', handleFormSubmission (Ui.initial preselectedForm) true = .fulfilled ui' ∧
      (ui'.form.field? 2).map (·.value) = some "general") ∧
    (validateForm buttonlessForm).2 = true ∧
    (∀ resolved, ∃ ui', handleFormSubmission (Ui.initial buttonlessForm) resolved
        = .rejected ui' ∧ ui'.notifications = []) :=
  ⟨by decide, ⟨_, rfl, by decide⟩, by decide,
   fun resolved => by cases resolved <;> exact ⟨_, rfl, by decide⟩⟩

theorem handleFormSubmissionSettle_submitButton (ui : Ui) (button : SubmitButton)
    (originalText : String) (resolved : Bool) (hbutton : ui.form.submitButton = some button) :
    (handleFormSubmissionSettle ui originalText resolved).form.submitButton
      = some { disabled := false, textContent := originalText } := by
  cases resolved <;>
    simp [handleFormSubmissionSettle, showNotification, Form.reset, hbutton]

theorem step_submitButton (ui : Ui) (event : UiEvent) :
    (ui.step event).form.submitButton = ui.form.submitButton := by
  cases event with
  | showNotification message type => rfl
  | closeClick id => rfl
  | dismissTimer id =>
    simp only [Ui.step]
    split
    · split <;> rfl
    · rfl
  | removeTimer id =>
    simp only [Ui.step]
    split <;> rfl

theorem react_submitButton (ui : Ui) (event : PageEvent) :
    (ui.react event).form.submitButton = ui.form.submitButton := by
  cases event with
  | notification event => exact step_submitButton ui event
  | blur ref =>
    simp only [Ui.react]
    split
    · split
      · exact validateField_submitButton _ _
      · rfl
    · rfl
  | input ref value =>
    simp only [Ui.react]
    split
    · split <;> rfl
    · rfl

theorem interact_submitButton (ui : Ui) (events : List PageEvent) :
    (ui.interact events).form.submitButton = ui.form.submitButton := by
  induction events generalizing ui with
  | nil => rfl
  | cons e es ih =>
    show ((ui.react e).interact es).form.submitButton = _
    rw [ih, react_submitButton]

/-- C9. For a form with a submit control: when validation passes, the
control is disabled and labelled `Sending...` when the transport starts and
stays so whatever else happens on the page while the transport is pending;
when the transport settles, resolved or rejected, the control is enabled and
has the label it had before the call; when validation fails, the call
returns with the control as it was. -/
theorem handleFormSubmission_submit_control (ui : Ui) (button : SubmitButton)
    (hbutton : ui.form.submitButton = some button) :
    ((validateForm ui.form).2 = true →
      ∃ pending, handleFormSubmissionStart ui = .pending pending button.textContent ∧
        (∀ events : List PageEvent,
          (pending.interact events).form.submitButton
            = some { disabled := true, textContent := "Sending..." } ∧
          ∀ resolved,
            (handleFormSubmissionSettle (pending.interact events) button.textContent
              resolved).form.submitButton
              = some { disabled := false, textContent := button.textContent }) ∧
        ∀ resolved, handleFormSubmission ui resolved
          = .fulfilled (handleFormSubmissionSettle pending button.textContent resolved)) ∧
    ((validateForm ui.form).2 = false →
      ∃ ui', handleFormSubmissionStart ui = .invalid ui' ∧
        (∀ resolved, handleFormSubmission ui resolved = .fulfilled ui') ∧
        ui'.form.submitButton = some button) := by
  constructor
  · intro hvalid
    have hstart := handleFormSubmissionStart_of_valid ui button hbutton hvalid
    refine ⟨_, hstart, ?_, ?_⟩
    · intro events
      have hmid := interact_submitButton { ui with
          form := { (validateForm ui.form).1 with
            submitButton := some { disabled := true, textContent := "Sending..." } } } events
      refine ⟨hmid, ?_⟩
      intro resolved
      exact handleFormSubmissionSettle_submitButton _ _ _ _ hmid
    · intro resolved
      unfold handleFormSubmission
      rw [hstart]
  · intro hinvalid
    have hstart := handleFormSubmissionStart_of_invalid ui hinvalid
    refine ⟨_, hstart, ?_, ?_⟩
    · intro resolved
      unfold handleFormSubmission
      rw [hstart]
    · simp only [showNotification]
      rw [validateForm_submitButton, hbutton]

theorem handleFormSubmission_submit_control_witness :
    (∃ pending, handleFormSubmissionStart
          (Ui.initial (contactForm "Al" "al@example.com" "Please call me back."))
          = .pending pending "Send Message" ∧
        (∀ events : List PageEvent,
          (pending.interact events).form.submitButton
            = some { disabled := true, textContent := "Sending..." } ∧
          ∀ resolved,
            (handleFormSubmissionSettle (pending.interact events) "Send Message"
              resolved).form.submitButton
              = some { disabled := false, textContent := "Send Message" }) ∧
        ∀ resolved, handleFormSubmission
            (Ui.initial (contactForm "Al" "al@example.com" "Please call me back.")) resolved
          = .fulfilled (handleFormSubmissionSettle pending "Send Message" resolved)) ∧
    (∃ ui', handleFormSubmissionStart (Ui.initial twoFieldForm) = .invalid ui' ∧
      (∀ resolved, handleFormSubmission (Ui.initial twoFieldForm) resolved = .fulfilled ui') ∧
      ui'.form.submitButton = some { disabled := false, textContent := "Send Message" }) :=
  ⟨(handleFormSubmission_submit_control
      (Ui.initial (contactForm "Al" "al@example.com" "Please call me back."))
      { disabled := false, textContent := "Send Message" } rfl).1 (by decide),
   (handleFormSubmission_submit_control (Ui.initial twoFieldForm)
      { disabled := false, textContent := "Send Message" } rfl).2 (by decide)⟩

theorem step_notifications_length (ui : Ui) (event : UiEvent)
    (h : ui.notifications.length ≤ 1) : (ui.step event).notifications.length ≤ 1 := by
  cases event with
  | showNotification message type => simp [Ui.step, PascalWeb.showNotification]
  | closeClick id =>
    simp only [Ui.step, removeNotification]
    exact le_trans (List.length_filter_le _ _) h
  | dismissTimer id =>
    simp only [Ui.step]
    split
    · split
      · simpa using h
      · exact h
    · exact h
  | removeTimer id =>
    simp only [Ui.step]
    split
    · simp only [removeNotification]
      exact le_trans (List.length_filter_le _ _) h
    · exact h

theorem run_notifications_length (ui : Ui) (events : List UiEvent)
    (h : ui.notifications.length ≤ 1) : (ui.run events).notifications.length ≤ 1 := by
  induction events generalizing ui with
  | nil => exact h
  | cons e es ih => exact ih (ui.step e) (step_notifications_length ui e h)

/-- C6. Starting with at most one notification in the document, after every
prefix of every run of `showNotification` calls, close-button clicks and
timer firings the document contains at most one notification element; and
whatever the state, after two successive `showNotification` calls the second
notification is the only one present. -/
theorem notifications_at_most_one (ui : Ui) (h : ui.notifications.length ≤ 1)
    (events : List UiEvent) :
    (∀ k, (ui.run (events.take k)).notifications.length ≤ 1) ∧
    ∀ m₁ t₁ m₂ t₂,
      (((ui.run events).step (.showNotification m₁ t₁)).step (.showNotification m₂ t₂)).notifications =
        [{ id := (ui.run events).created + 1, message := m₂, type := t₂,
           animation := "slideInRight 0.3s ease-out" }] :=
  ⟨fun k => run_notifications_length ui (events.take k) h, fun _ _ _ _ => rfl⟩

theorem notifications_at_most_one_witness :
    (Ui.initial twoFieldForm).notifications.length ≤ 1 ∧
    (∀ k, ((Ui.initial twoFieldForm).run
      ([UiEvent.showNotification "a" "info", .dismissTimer 0, .showNotification "b" "error", .removeTimer 0,
        .closeClick 1].take k)).notifications.length ≤ 1) ∧
    ∀ m₁ t₁ m₂ t₂,
      ((((Ui.initial twoFieldForm).run
        [UiEvent.showNotification "a" "info", .dismissTimer 0, .showNotification "b" "error", .removeTimer 0,
          .closeClick 1]).step (.showNotification m₁ t₁)).step (.showNotification m₂ t₂)).notifications =
        [{ id := ((Ui.initial twoFieldForm).run
            [UiEvent.showNotification "a" "info", .dismissTimer 0, .showNotification "b" "error", .removeTimer 0,
              .closeClick 1]).created + 1,
           message := m₂, type := t₂, animation := "slideInRight 0.3s ease-out" }] :=
  ⟨by decide,
   notifications_at_most_one (Ui.initial twoFieldForm) (by decide)
    [UiEvent.showNotification "a" "info", .dismissTimer 0, .showNotification "b" "error", .removeTimer 0,
      .closeClick 1]⟩

/-! ## Theorems: scroll effects -/

theorem step_consistent (s : ScrollEffects) (event : ScrollEvent) (h : s.Consistent) :
    (s.step event).Consistent := by
  unfold ScrollEffects.Consistent at h ⊢
  cases event with
  | scroll y =>
    cases ht : s.ticking <;> simp [ScrollEffects.step, requestTick, ht] at h ⊢ <;> exact h
  | animationFrame =>
    cases ht : s.ticking
    · simp only [ht, Bool.false_eq_true, if_false] at h
      simp [ScrollEffects.step, h, runCallbacks, ht]
    · simp only [ht, if_true] at h
      simp [ScrollEffects.step, h, runCallbacks, updateScrollEffects]

theorem run_consistent (s : ScrollEffects) (events : List ScrollEvent) (h : s.Consistent) :
    (s.run events).Consistent := by
  induction events generalizing s with
  | nil => exact h
  | cons e es ih => exact ih (s.step e) (step_consistent s e h)

theorem pendingCallbacks_le_one (s : ScrollEffects) (h : s.Consistent) :
    s.pendingCallbacks ≤ 1 := by
  unfold ScrollEffects.Consistent at h
  rw [h]
  split <;> simp

/-- A run of scroll events with no animation frame in between calls
`requestAnimationFrame` at most once, and after the first one the guard is
set. -/
theorem scrolls_request_once (s : ScrollEffects) (offsets : List Int) :
    (s.run (offsets.map ScrollEvent.scroll)).requested ≤ s.requested + 1 ∧
    (s.ticking = true →
      (s.run (offsets.map ScrollEvent.scroll)).requested = s.requested) := by
  induction offsets generalizing s with
  | nil => exact ⟨Nat.le_succ _, fun _ => rfl⟩
  | cons y ys ih =>
    simp only [List.map_cons, ScrollEffects.run, List.foldl_cons]
    have ih' := ih (s.step (.scroll y))
    simp only [ScrollEffects.run] at ih'
    cases ht : s.ticking
    · have h1 : (s.step (.scroll y)).ticking = true := by
        simp [ScrollEffects.step, requestTick, ht]
      have h2 : (s.step (.scroll y)).requested = s.requested + 1 := by
        simp [ScrollEffects.step, requestTick, ht]
      refine ⟨?_, fun h => by cases h⟩
      rw [ih'.2 h1, h2]
    · have h1 : (s.step (.scroll y)).ticking = true := by
        simp [ScrollEffects.step, requestTick, ht]
      have h2 : (s.step (.scroll y)).requested = s.requested := by
        simp [ScrollEffects.step, requestTick, ht]
      refine ⟨?_, fun _ => ?_⟩
      · rw [ih'.2 h1, h2]; exact Nat.le_succ _
      · rw [ih'.2 h1, h2]

theorem addScrollEffects_consistent (pageYOffset : Int) (navbar : Option NavbarStyle) :
    (addScrollEffects pageYOffset navbar).Consistent := rfl

/-- C11. For every run of scroll events and animation frames after
`addScrollEffects`: at every instant at most one `updateScrollEffects`
callback is pending; any number of scroll events with no animation frame in
between calls `requestAnimationFrame` at most once; an animation frame runs
the recomputation at most once; and after an animation frame the guard is
cleared, nothing is pending, and the next scroll event queues exactly one new
callback with exactly one call of `requestAnimationFrame`. -/
theorem addScrollEffects_single_flight (pageYOffset : Int) (navbar : Option NavbarStyle)
    (events : List ScrollEvent) :
    (∀ k, ((addScrollEffects pageYOffset navbar).run (events.take k)).pendingCallbacks ≤ 1) ∧
    (∀ offsets : List Int,
      (((addScrollEffects pageYOffset navbar).run events).run
          (offsets.map ScrollEvent.scroll)).requested
        ≤ ((addScrollEffects pageYOffset navbar).run events).requested + 1) ∧
    ((((addScrollEffects pageYOffset navbar).run events).step .animationFrame).recomputed
        ≤ ((addScrollEffects pageYOffset navbar).run events).recomputed + 1) ∧
    ((((addScrollEffects pageYOffset navbar).run events).step .animationFrame).ticking = false ∧
      (((addScrollEffects pageYOffset navbar).run events).step
        .animationFrame).pendingCallbacks = 0) ∧
    (∀ y,
      ((((addScrollEffects pageYOffset navbar).run events).step .animationFrame).step
          (.scroll y)).pendingCallbacks = 1 ∧
      ((((addScrollEffects pageYOffset navbar).run events).step .animationFrame).step
          (.scroll y)).requested
        = (((addScrollEffects pageYOffset navbar).run events).step .animationFrame).requested
          + 1) := by
  have hinit := addScrollEffects_consistent pageYOffset navbar
  have hrun := run_consistent _ events hinit
  generalize (addScrollEffects pageYOffset navbar).run events = s at hrun
  have hframe : (s.step .animationFrame).ticking = false ∧
      (s.step .animationFrame).pendingCallbacks = 0 ∧
      (s.step .animationFrame).recomputed ≤ s.recomputed + 1 ∧
      (s.step .animationFrame).requested = s.requested := by
    unfold ScrollEffects.Consistent at hrun
    cases ht : s.ticking
    · simp only [ht, Bool.false_eq_true, if_false] at hrun
      simp [ScrollEffects.step, hrun, runCallbacks, ht]
    · simp only [ht, if_true] at hrun
      simp [ScrollEffects.step, hrun, runCallbacks, updateScrollEffects]
  refine ⟨?_, ?_, hframe.2.2.1, ⟨hframe.1, hframe.2.1⟩, ?_⟩
  · intro k
    exact pendingCallbacks_le_one _ (run_consistent _ _ hinit)
  · intro offsets
    exact (scrolls_request_once s offsets).1
  · intro y
    simp [ScrollEffects.step, requestTick] at hframe ⊢
    simp [hframe.1, hframe.2.1]
end PascalWeb
